import Mathlib

/-! A shallow embedding of `main.go` of myhttp.

The Go program fetches a list of URLs with a bounded number of concurrent
requests, hashes every successful response body with MD5 and reports one
`(url, result)` pair per URL.

* `makeRequest`, `hashResponse`, `parseURLs` and `parseArgs` are pure functions
  of their inputs and of what the libraries they call answer.
* `makeRequests` is concurrent: it is embedded as a transition system whose
  state holds the buffered channel `pool`, the wait group, the mutex, the shared
  slice `responses`, the program counter of the calling goroutine and one
  record per spawned goroutine. A schedule picks which goroutine moves next.
-/

namespace MyHTTP

/-! ## Constants (main.go, lines 16-23) -/

/-- The Go constant `defaultMaxWorkers`. -/
def defaultMaxWorkers : String := "10"

/-- The Go constant `maxBodySize`, `1024 * 10`. -/
def maxBodySize : Int := 1024 * 10

/-- The Go constant `parallelArg`. -/
def parallelArg : String := "-parallel"

/-- The Go constant `incorrectParallelErrorMsg`. -/
def incorrectParallelErrorMsg : String := "Incorrect \"-parallel\" argument"

/-- The Go constant `insufficentArgsError`. -/
def insufficentArgsError : String := "You should provide at least one URL"

/-- The Go constant `requestScheme`. -/
def requestScheme : String := "http"

/-! ## Bytes -/

/-- A byte of a Go string or of a `[]byte`. -/
abbrev Byte := Fin 256

/-- The bytes of a Lean string in UTF-8, which is how Go stores a string literal. -/
def stringBytes (s : String) : List Byte :=
  (s.data.flatMap String.utf8EncodeChar).map (fun b => Fin.ofNat b.toNat)

/-! ## Errors (main.go, lines 25-39) -/

/-- The two error types of the program, `*RequestError` and `*MyHTTPError`. -/
inductive GoError where
  | RequestError (StatusCode : Int)
  | MyHTTPError (Message : String)
  deriving DecidableEq, Repr

/-- The `Error()` methods: `fmt.Sprintf("MyHTTP_Error: Status code %d", e.StatusCode)`
and `fmt.Sprintf("MyHTTP_Error: %s", e.Message)`. -/
def GoError.Error : GoError → String
  | .RequestError code => "MyHTTP_Error: Status code " ++ toString code
  | .MyHTTPError msg => "MyHTTP_Error: " ++ msg

/-! ## `crypto/md5` and `encoding/hex` -/

/-- The per-round shift amounts of MD5 (RFC 1321). -/
def md5Shifts : List Nat :=
  [7, 12, 17, 22, 7, 12, 17, 22, 7, 12, 17, 22, 7, 12, 17, 22,
   5, 9, 14, 20, 5, 9, 14, 20, 5, 9, 14, 20, 5, 9, 14, 20,
   4, 11, 16, 23, 4, 11, 16, 23, 4, 11, 16, 23, 4, 11, 16, 23,
   6, 10, 15, 21, 6, 10, 15, 21, 6, 10, 15, 21, 6, 10, 15, 21]

/-- The sine table of MD5: entry `i` is `floor(2^32 * |sin(i + 1)|)`. -/
def md5Table : List Nat :=
  [0xd76aa478, 0xe8c7b756, 0x242070db, 0xc1bdceee,
   0xf57c0faf, 0x4787c62a, 0xa8304613, 0xfd469501,
   0x698098d8, 0x8b44f7af, 0xffff5bb1, 0x895cd7be,
   0x6b901122, 0xfd987193, 0xa679438e, 0x49b40821,
   0xf61e2562, 0xc040b340, 0x265e5a51, 0xe9b6c7aa,
   0xd62f105d, 0x02441453, 0xd8a1e681, 0xe7d3fbc8,
   0x21e1cde6, 0xc33707d6, 0xf4d50d87, 0x455a14ed,
   0xa9e3e905, 0xfcefa3f8, 0x676f02d9, 0x8d2a4c8a,
   0xfffa3942, 0x8771f681, 0x6d9d6122, 0xfde5380c,
   0xa4beea44, 0x4bdecfa9, 0xf6bb4b60, 0xbebfbc70,
   0x289b7ec6, 0xeaa127fa, 0xd4ef3085, 0x04881d05,
   0xd9d4d039, 0xe6db99e5, 0x1fa27cf8, 0xc4ac5665,
   0xf4292244, 0x432aff97, 0xab9423a7, 0xfc93a039,
   0x655b59c3, 0x8f0ccc92, 0xffeff47d, 0x85845dd1,
   0x6fa87e4f, 0xfe2ce6e0, 0xa3014314, 0x4e0811a1,
   0xf7537e82, 0xbd3af235, 0x2ad7d2bb, 0xeb86d391]

/-- Bitwise complement of a 32-bit word. -/
def not32 (x : Nat) : Nat := x ^^^ 0xffffffff

/-- Left rotation of a 32-bit word by `c` bits. -/
def rotl32 (x c : Nat) : Nat := ((x <<< c) ||| (x >>> (32 - c))) % 2 ^ 32

/-- The four 32-bit words of the MD5 state. -/
structure MD5State where
  a : Nat
  b : Nat
  c : Nat
  d : Nat
  deriving DecidableEq, Repr

/-- The initial MD5 state. -/
def md5Init : MD5State := ⟨0x67452301, 0xefcdab89, 0x98badcfe, 0x10325476⟩

/-- The little-endian bytes of a word, `n` of them. -/
def leBytes : Nat → Nat → List Nat
  | 0, _ => []
  | n + 1, x => x % 256 :: leBytes n (x / 256)

/-- The padded message: the bytes, `0x80`, zeros up to 56 modulo 64, and the
length in bits as 8 little-endian bytes. -/
def md5Pad (msg : List Byte) : List Nat :=
  msg.map (fun b => b.val) ++ [0x80]
    ++ List.replicate ((119 - msg.length % 64) % 64) 0
    ++ leBytes 8 (8 * msg.length % 2 ^ 64)

/-- The little-endian word starting at byte `4 * j` of a block. -/
def md5Word (block : List Nat) (j : Nat) : Nat :=
  block.getD (4 * j) 0 + 256 * block.getD (4 * j + 1) 0
    + 65536 * block.getD (4 * j + 2) 0 + 16777216 * block.getD (4 * j + 3) 0

/-- Round `i` of the MD5 compression function on the block `block`. -/
def md5Round (block : List Nat) (st : MD5State) (i : Nat) : MD5State :=
  let f :=
    if i < 16 then (st.b &&& st.c) ||| (not32 st.b &&& st.d)
    else if i < 32 then (st.d &&& st.b) ||| (not32 st.d &&& st.c)
    else if i < 48 then st.b ^^^ st.c ^^^ st.d
    else st.c ^^^ (st.b ||| not32 st.d)
  let g :=
    if i < 16 then i
    else if i < 32 then (5 * i + 1) % 16
    else if i < 48 then (3 * i + 5) % 16
    else (7 * i) % 16
  let x := (f + st.a + md5Table.getD i 0 + md5Word block g) % 2 ^ 32
  ⟨st.d, (st.b + rotl32 x (md5Shifts.getD i 0)) % 2 ^ 32, st.b, st.c⟩

/-- The compression of one 64-byte block into the state. -/
def md5Block (st : MD5State) (block : List Nat) : MD5State :=
  let r := (List.range 64).foldl (md5Round block) st
  ⟨(st.a + r.a) % 2 ^ 32, (st.b + r.b) % 2 ^ 32, (st.c + r.c) % 2 ^ 32, (st.d + r.d) % 2 ^ 32⟩

/-- The first `n` 64-byte blocks of a byte list. -/
def md5Blocks : Nat → List Nat → List (List Nat)
  | 0, _ => []
  | n + 1, bs => bs.take 64 :: md5Blocks n (bs.drop 64)

/-- The function `md5.Sum`: the 16 bytes of the MD5 digest. -/
def md5Sum (msg : List Byte) : List Byte :=
  let padded := md5Pad msg
  let st := (md5Blocks (padded.length / 64) padded).foldl md5Block md5Init
  (leBytes 4 st.a ++ leBytes 4 st.b ++ leBytes 4 st.c ++ leBytes 4 st.d).map
    (fun x => Fin.ofNat x)

/-- The table `hextable` of `encoding/hex`. -/
def hextable : List Char :=
  ['0', '1', '2', '3', '4', '5', '6', '7', '8', '9', 'a', 'b', 'c', 'd', 'e', 'f']

/-- The two characters `hextable[v >> 4]`, `hextable[v & 0x0f]` of a byte. -/
def hexByte (v : Byte) : List Char :=
  [hextable.getD (v.val >>> 4) '0', hextable.getD (v.val &&& 0x0f) '0']

/-- The function `hex.EncodeToString`. -/
def hexEncodeToString (src : List Byte) : String :=
  String.mk (src.flatMap hexByte)

/-- The function `hashResponse` (main.go, lines 70-73). -/
def hashResponse (content : List Byte) : String :=
  let hash := md5Sum content
  hexEncodeToString hash

/-! ## `makeRequest` (main.go, lines 46-68) -/

/-- What `ioutil.ReadAll(resp.Body)` answers: the whole body, or an error. -/
inductive ReadAllResult where
  | ok (body : List Byte)
  | fail (err : String)
  deriving DecidableEq, Repr

/-- The fields of `*http.Response` the program uses. `ContentLength` is `-1`
when the length is not declared. `Body` is what reading it to the end gives. -/
structure Response where
  StatusCode : Int
  ContentLength : Int
  Body : ReadAllResult
  deriving DecidableEq, Repr

/-- What `client.Get(uri)` answers: an error, or a response. -/
inductive GetResult where
  | fail (err : String)
  | resp (r : Response)
  deriving DecidableEq, Repr

/-- What one call of `makeRequest` does: the two returned values, whether
`ioutil.ReadAll` was called on the body and whether `resp.Body.Close()` ran. -/
structure RequestOutcome where
  body : List Byte
  err : Option GoError
  bodyRead : Bool
  bodyClosed : Bool
  deriving DecidableEq, Repr

/-- The function `makeRequest`, as a function of what `client.Get` answers.
The `defer resp.Body.Close()` of line 56 is registered only after the status
check of lines 51-54 has not returned, and runs on every return after it. -/
def makeRequest (get : GetResult) : RequestOutcome :=
  match get with
  | .fail err => ⟨[], some (.MyHTTPError err), false, false⟩
  | .resp resp =>
    let StatusCodeNotWithin2xx := decide (resp.StatusCode < 200) || decide (resp.StatusCode > 299)
    if StatusCodeNotWithin2xx then
      ⟨[], some (.RequestError resp.StatusCode), false, false⟩
    else
      -- line 56: the deferred Close is registered here
      if resp.ContentLength > maxBodySize then
        ⟨[], some (.MyHTTPError ("Response body above " ++ toString maxBodySize
          ++ " bytes threshold: " ++ toString resp.ContentLength)), false, true⟩
      else
        match resp.Body with
        | .fail err => ⟨[], some (.MyHTTPError err), true, true⟩
        | .ok body => ⟨body, none, true, true⟩

/-- The message a goroutine of `makeRequests` computes (main.go, lines 88-94):
`err.Error()` when `makeRequest` failed, `hashResponse(body)` otherwise. -/
def taskMsg (get : GetResult) : String :=
  match (makeRequest get).err with
  | some err => err.Error
  | none => hashResponse (makeRequest get).body

/-! ## `strconv.Atoi`, `parseURLs`, `parseArgs` (main.go, lines 108-158) -/

/-- The value of a string of decimal digits, `none` when a character is not a digit. -/
def parseDigits : List Char → Nat → Option Nat
  | [], acc => some acc
  | c :: cs, acc =>
    if '0' ≤ c ∧ c ≤ '9' then parseDigits cs (acc * 10 + (c.toNat - '0'.toNat)) else none

/-- The function `strconv.Atoi` on a platform with 64-bit `int`: an optional
sign, then one or more decimal digits, the value in the range of `int`.
`none` stands for a non-nil error. -/
def Atoi (s : String) : Option Int :=
  let digits := match s.data with
    | '-' :: rest => rest
    | '+' :: rest => rest
    | cs => cs
  let neg := match s.data with
    | '-' :: _ => true
    | _ => false
  if digits = [] then none
  else match parseDigits digits 0 with
    | none => none
    | some n =>
      let v : Int := if neg then -(n : Int) else (n : Int)
      if v < -(2 ^ 63) ∨ v > 2 ^ 63 - 1 then none else some v

/-- The part of `url.URL` the program touches: the scheme, and everything else. -/
structure URL where
  Scheme : String
  remainder : String
  deriving DecidableEq, Repr

/-- The two functions of `net/url` the program calls: `url.Parse` (`none` for a
non-nil error) and the method `String`. -/
structure URLLib where
  Parse : String → Option URL
  String : URL → String

/-- The function `parseURLs`. -/
def parseURLs (lib : URLLib) (urls : List String) : List String :=
  urls.map (fun uri =>
    match lib.Parse uri with
    | none => uri
    | some u => lib.String (if u.Scheme = "" then { u with Scheme := "http" } else u))

/-- The function `parseArgs`. The third component is the text of the returned
error, `none` for `nil`. -/
def parseArgs (lib : URLLib) (args : List String) : Int × List String × Option String :=
  if args.length = 0 then
    (0, [], some insufficentArgsError)
  else
    let split : List String × List String :=
      if args.length = 1 ∧ args.head? = some parallelArg then
        ([parallelArg, "incorrect"], [])
      else if args.head? = some parallelArg then
        (args.take 2, args.drop 2)
      else
        ([parallelArg, defaultMaxWorkers], args)
    match Atoi (split.1.getD 1 "") with
    | none => (0, [], some incorrectParallelErrorMsg)
    | some workers =>
      if workers < 1 then (0, [], some incorrectParallelErrorMsg)
      else (workers, parseURLs lib split.2, none)

/-! ## `makeRequests` (main.go, lines 75-106) as a transition system -/

/-- The Go struct `HashedURLResponse`. -/
structure HashedURLResponse where
  url : String
  result : String
  deriving DecidableEq, Repr

/-- Where a goroutine spawned at line 87 stands. -/
inductive Pc where
  /-- spawned, `makeRequest` not yet called -/
  | start
  /-- inside `makeRequest(url, client)` (line 88) -/
  | fetching
  /-- has set `msg` (lines 89-94), before `mutex.Lock()` -/
  | gotMsg
  /-- holds the mutex, before line 96 reads `responses` -/
  | locked
  /-- has read `responses` for `append`, before the assignment of line 96 -/
  | read
  /-- has assigned `responses`, before `mutex.Unlock()` -/
  | appended
  /-- before `wg.Done()` -/
  | unlocked
  /-- before `<-pool` -/
  | doneWg
  /-- the goroutine has ended -/
  | exited
  deriving DecidableEq, Repr

/-- A goroutine spawned at line 87: its argument `url`, its local `msg`, the
value of `responses` it read as the argument of `append`, its position. -/
structure Task where
  url : String
  msg : String
  seen : List HashedURLResponse
  pc : Pc
  deriving DecidableEq, Repr

/-- Where the goroutine that called `makeRequests` stands. -/
inductive MainPc where
  /-- at the head of the `for` (line 83) with `rest` still to range over:
  before `pool <- 1` when `rest` is not empty, before `wg.Wait()` when it is -/
  | loop (rest : List String)
  /-- after `pool <- 1`, before `wg.Add(1)` -/
  | add (url : String) (rest : List String)
  /-- after `wg.Add(1)`, before the `go` statement -/
  | spawn (url : String) (rest : List String)
  /-- after `wg.Wait()`, before `return responses` -/
  | ret
  /-- the result is set, the deferred `close(pool)` has not run -/
  | closing
  /-- has returned from `makeRequests` -/
  | returned
  deriving DecidableEq, Repr

/-- The state of one call of `makeRequests`. -/
structure State where
  main : MainPc
  /-- the number of values buffered in the channel `pool` -/
  pool : Nat
  /-- whether `pool` is closed -/
  closed : Bool
  /-- the counter of the wait group `wg` -/
  wg : Nat
  /-- whether `mutex` is held -/
  mutex : Bool
  /-- the shared slice `responses` -/
  responses : List HashedURLResponse
  /-- the goroutines spawned so far, in the order of their spawning -/
  tasks : List Task
  /-- the value `makeRequests` returns, once `return responses` has run -/
  result : Option (List HashedURLResponse)
  /-- whether the runtime has panicked -/
  panicked : Bool
  deriving DecidableEq, Repr

/-- The state after lines 76-81, for a channel that could be made. -/
def initState (urls : List String) : State :=
  { main := .loop urls, pool := 0, closed := false, wg := 0, mutex := false,
    responses := [], tasks := [], result := none, panicked := false }

/-- Which goroutine moves: the caller, or the `i`-th spawned goroutine. -/
inductive Action where
  | main
  | task (i : Nat)
  deriving DecidableEq, Repr

/-- One step of the calling goroutine; `none` when it is blocked or has returned.
`cap` is the capacity of `pool`. -/
def stepMain (cap : Nat) (s : State) : Option State :=
  match s.main with
  | .loop (url :: rest) =>
    -- pool <- 1
    if s.closed then some { s with panicked := true }
    else if s.pool < cap then some { s with pool := s.pool + 1, main := .add url rest }
    else if s.pool = 0 then
      -- no buffer: the value goes to a goroutine parked at its receive
      match s.tasks.findIdx? (fun t => t.pc = .doneWg) with
      | some i =>
        some { s with tasks := s.tasks.modify (fun t => { t with pc := .exited }) i,
                      main := .add url rest }
      | none => none
    else none
  | .add url rest =>
    -- wg.Add(1)
    some { s with wg := s.wg + 1, main := .spawn url rest }
  | .spawn url rest =>
    -- go func(url string) {...}(url)
    some { s with tasks := s.tasks ++ [⟨url, "", [], .start⟩], main := .loop rest }
  | .loop [] =>
    -- wg.Wait()
    if s.wg = 0 then some { s with main := .ret } else none
  | .ret =>
    -- return responses
    some { s with result := some s.responses, main := .closing }
  | .closing =>
    -- the deferred close(pool)
    if s.closed then some { s with panicked := true }
    else some { s with closed := true, main := .returned }
  | .returned => none

/-- One step of the `i`-th spawned goroutine; `none` when it is blocked, has
ended or was never spawned. `get i url` is what `client.Get` answers to it. -/
def stepTask (get : Nat → String → GetResult) (s : State) (i : Nat) : Option State :=
  match s.tasks[i]? with
  | none => none
  | some t =>
    match t.pc with
    | .start => some { s with tasks := s.tasks.set i { t with pc := .fetching } }
    | .fetching =>
      some { s with tasks := s.tasks.set i { t with msg := taskMsg (get i t.url), pc := .gotMsg } }
    | .gotMsg =>
      -- mutex.Lock()
      if s.mutex then none
      else some { s with mutex := true, tasks := s.tasks.set i { t with pc := .locked } }
    | .locked =>
      -- the operand `responses` of append(responses, HashedURLResponse{url, msg}) is read
      some { s with tasks := s.tasks.set i { t with seen := s.responses, pc := .read } }
    | .read =>
      -- responses = append(..., HashedURLResponse{url, msg}) is assigned
      some { s with responses := t.seen ++ [⟨t.url, t.msg⟩],
                    tasks := s.tasks.set i { t with pc := .appended } }
    | .appended =>
      -- mutex.Unlock()
      if s.mutex then some { s with mutex := false, tasks := s.tasks.set i { t with pc := .unlocked } }
      else some { s with panicked := true }
    | .unlocked =>
      -- wg.Done()
      if s.wg = 0 then some { s with panicked := true }
      else some { s with wg := s.wg - 1, tasks := s.tasks.set i { t with pc := .doneWg } }
    | .doneWg =>
      -- <-pool
      if 0 < s.pool then
        some { s with pool := s.pool - 1, tasks := s.tasks.set i { t with pc := .exited } }
      else if s.closed then some { s with tasks := s.tasks.set i { t with pc := .exited } }
      else none
    | .exited => none

/-- One step of the whole program; nothing moves after a panic. -/
def step (cap : Nat) (get : Nat → String → GetResult) (s : State) (a : Action) : Option State :=
  if s.panicked then none
  else match a with
    | .main => stepMain cap s
    | .task i => stepTask get s i

/-- The state a schedule leads to, `none` when one of its actions cannot move. -/
def exec (cap : Nat) (get : Nat → String → GetResult) : State → List Action → Option State
  | s, [] => some s
  | s, a :: as =>
    match step cap get s a with
    | none => none
    | some s' => exec cap get s' as

/-- The actions that can move in a state. -/
def enabledActions (cap : Nat) (get : Nat → String → GetResult) (s : State) : List Action :=
  (Action.main :: (List.range s.tasks.length).map Action.task).filter
    (fun a => (step cap get s a).isSome)

/-- Runs the program under a scheduler: at tick `k` the scheduler's number
`sched k` picks one of the actions that can move. Stops when none can. -/
def runSched (cap : Nat) (get : Nat → String → GetResult) (sched : Nat → Nat) :
    Nat → Nat → State → State
  | 0, _, s => s
  | fuel + 1, k, s =>
    match enabledActions cap get s with
    | [] => s
    | a :: as =>
      match step cap get s ((a :: as).getD (sched k % (as.length + 1)) a) with
      | none => s
      | some s' => runSched cap get sched fuel (k + 1) s'

/-- How a call of `makeRequests` ends. -/
inductive CallResult where
  | returned (responses : List HashedURLResponse)
  | panic
  | blocked
  deriving DecidableEq, Repr

/-- The number of steps a call of `makeRequests` can still take. -/
def stepsLeft (urls : List String) : Nat := 11 * urls.length + 3

/-- What the Go runtime answers to `make(chan int, size)` on a 64-bit platform,
where an `int` takes 8 bytes. `makechan` panics ("makechan: size out of range")
when `size` is negative, when `8 * size` overflows a `uintptr` and when it
exceeds what the allocator can give; a channel without buffer can be made. -/
structure Runtime where
  /-- whether `make(chan int, size)` gives a channel -/
  chanOK : Int → Bool
  neg : ∀ size : Int, size < 0 → chanOK size = false
  overflow : ∀ size : Int, 2 ^ 64 ≤ 8 * size → chanOK size = false
  zero : chanOK 0 = true

/-- The check of `makechan` with `maxAlloc = 2^48` and `hchanSize = 96`, as on
linux/amd64: the buffer of `8 * size` bytes and the channel header must fit in
`maxAlloc`. -/
def linuxAmd64 : Runtime where
  chanOK := fun size => decide (0 ≤ size ∧ 8 * size + 96 ≤ 2 ^ 48)
  neg := by
    intro size h
    simp only [decide_eq_false_iff_not]
    omega
  overflow := by
    intro size h
    simp only [decide_eq_false_iff_not]
    omega
  zero := by decide

/-- The function `makeRequests` under a scheduler. `make(chan int, maxWorkers)`
panics when the runtime refuses the size; otherwise the program runs until no
goroutine can move, and the call has returned, panicked or is blocked for ever. -/
def makeRequests (rt : Runtime) (urls : List String) (maxWorkers : Int)
    (get : Nat → String → GetResult) (sched : Nat → Nat) : CallResult :=
  if rt.chanOK maxWorkers = false then .panic
  else
    let s := runSched maxWorkers.toNat get sched (stepsLeft urls) 0 (initState urls)
    if s.panicked then .panic
    else match s.result with
      | some responses => .returned responses
      | none => .blocked

/-- The entries the goroutines of a call are to record: one per position of `urls`. -/
def expectedFrom (get : Nat → String → GetResult) : Nat → List String → List HashedURLResponse
  | _, [] => []
  | i, url :: rest => ⟨url, taskMsg (get i url)⟩ :: expectedFrom get (i + 1) rest

/-- The outcome text of one fetch, written from the words of the specification
(sections 4.1, 4.3 and 6) and not from the code: a transport failure or a
failure to read the body gives the prefix and the underlying text, a status
code outside 200..299 gives "Status code" and the code, a declared length above
10240 gives the oversized message with the declared length, and a success
gives the digest of the body in hexadecimal. -/
def specOutcome (get : GetResult) : String :=
  match get with
  | .fail err => "MyHTTP_Error: " ++ err
  | .resp r =>
    if r.StatusCode < 200 ∨ 299 < r.StatusCode then
      "MyHTTP_Error: Status code " ++ toString r.StatusCode
    else if 10240 < r.ContentLength then
      "MyHTTP_Error: Response body above 10240 bytes threshold: " ++ toString r.ContentLength
    else
      match r.Body with
      | .fail err => "MyHTTP_Error: " ++ err
      | .ok body => hexEncodeToString (md5Sum body)

/-- The result set of the specification: for every position of `urls`, the URL
with the outcome text of its fetch. -/
def specEntries (get : Nat → String → GetResult) : Nat → List String → List HashedURLResponse
  | _, [] => []
  | i, url :: rest => ⟨url, specOutcome (get i url)⟩ :: specEntries get (i + 1) rest

/-- A `net/url` that parses nothing, so that `parseURLs` leaves every argument as it is. -/
def noParse : URLLib := ⟨fun _ => none, fun u => u.remainder⟩

/-- The goroutines that have started their fetch and not yet released their slot. -/
def inFlight (s : State) : Nat :=
  (s.tasks.filter (fun t => t.pc ≠ .start ∧ t.pc ≠ .exited)).length

/-- The goroutines inside `makeRequest`. -/
def fetchingNow (s : State) : Nat :=
  (s.tasks.filter (fun t => t.pc = .fetching)).length

/-- The servers of `TestMakeRequests`: the first answers 200 with the body
"responsebody", the second 500 with the body "ServerError". -/
def testServers : Nat → String → GetResult := fun _ url =>
  if url = "http://127.0.0.1:1" then .resp ⟨200, 12, .ok (stringBytes "responsebody")⟩
  else .resp ⟨500, 11, .ok (stringBytes "ServerError")⟩

/-- The error `makeRequest` builds at line 58 for a declared length. -/
def oversizedError (ContentLength : Int) : GoError :=
  .MyHTTPError ("Response body above 10240 bytes threshold: " ++ toString ContentLength)

/-- The two URLs of `TestMakeRequests`. -/
def testURLs : List String := ["http://127.0.0.1:1", "http://127.0.0.1:2"]

/-- The call `sort.Slice` of `TestMakeRequests`, which orders by `result`. -/
def sortByResult (xs : List HashedURLResponse) : List HashedURLResponse :=
  xs.insertionSort (fun a b => a.result < b.result)

/-- The state of `TestMakeRequests` in which the first goroutine, and no other,
has been spawned and is inside `makeRequest`. -/
def firstFetching : State :=
  { main := .loop ["http://127.0.0.1:2"], pool := 1, closed := false, wg := 1,
    mutex := false, responses := [], tasks := [⟨"http://127.0.0.1:1", "", [], .fetching⟩],
    result := none, panicked := false }

/-! ## The invariant of `makeRequests` -/

/-- The position of a goroutine as a number, 0 at its start and 8 at its end. -/
def Pc.rank : Pc → Nat
  | .start => 0
  | .fetching => 1
  | .gotMsg => 2
  | .locked => 3
  | .read => 4
  | .appended => 5
  | .unlocked => 6
  | .doneWg => 7
  | .exited => 8

/-- The slot of `pool` a goroutine holds: 1 while it has not received from `pool`. -/
def Pc.slot : Pc → Nat
  | .exited => 0
  | _ => 1

/-- The share of a goroutine in the counter of `wg`: 1 while it has not called `wg.Done()`. -/
def Pc.wgc : Pc → Nat
  | .doneWg => 0
  | .exited => 0
  | _ => 1

/-- The hold of a goroutine on the mutex: 1 between `Lock` and `Unlock`. -/
def Pc.mtx : Pc → Nat
  | .locked => 1
  | .read => 1
  | .appended => 1
  | _ => 0

/-- The entry a goroutine has appended to `responses`, if it has. -/
def Task.recorded (t : Task) : Option HashedURLResponse :=
  if 5 ≤ t.pc.rank then some ⟨t.url, t.msg⟩ else none

/-- The slot of `pool` the caller holds for a goroutine it has not spawned yet. -/
def MainPc.slot : MainPc → Nat
  | .add _ _ => 1
  | .spawn _ _ => 1
  | _ => 0

/-- The share of the caller in the counter of `wg`, for a goroutine it has not spawned yet. -/
def MainPc.wgc : MainPc → Nat
  | .spawn _ _ => 1
  | _ => 0

/-- The URLs for which the caller has not spawned a goroutine yet. -/
def MainPc.pending : MainPc → List String
  | .loop rest => rest
  | .add url rest => url :: rest
  | .spawn url rest => url :: rest
  | _ => []

/-- Whether `wg.Wait()` has returned. -/
def MainPc.late : MainPc → Bool
  | .ret => true
  | .closing => true
  | .returned => true
  | _ => false

/-- Whether `return responses` has run. -/
def MainPc.hasResult : MainPc → Bool
  | .closing => true
  | .returned => true
  | _ => false

/-- The steps the caller and the goroutines it has yet to spawn can still take. -/
def MainPc.left : MainPc → Nat
  | .loop rest => 11 * rest.length + 3
  | .add _ rest => 11 * rest.length + 13
  | .spawn _ rest => 11 * rest.length + 12
  | .ret => 2
  | .closing => 1
  | .returned => 0

/-- The steps the whole program can still take. -/
def measure (s : State) : Nat :=
  s.main.left + (s.tasks.map (fun t => 8 - t.pc.rank)).sum

/-- The invariant of the states of `makeRequests(urls, cap)` for `cap ≥ 1`. -/
structure Inv (cap : Nat) (get : Nat → String → GetResult) (urls : List String)
    (s : State) : Prop where
  pool_eq : s.pool = (s.tasks.map (fun t => t.pc.slot)).sum + s.main.slot
  wg_eq : s.wg = (s.tasks.map (fun t => t.pc.wgc)).sum + s.main.wgc
  mutex_eq : (if s.mutex then 1 else 0) = (s.tasks.map (fun t => t.pc.mtx)).sum
  resp_perm : s.responses.Perm (s.tasks.filterMap Task.recorded)
  msg_ok : ∀ (i : Nat) (t : Task), s.tasks[i]? = some t → 2 ≤ t.pc.rank →
    t.msg = taskMsg (get i t.url)
  seen_ok : ∀ (i : Nat) (t : Task), s.tasks[i]? = some t → t.pc = .read →
    t.seen = s.responses
  urls_eq : s.tasks.map (fun t => t.url) ++ s.main.pending = urls
  pool_le : s.pool ≤ cap
  no_panic : s.panicked = false
  closed_eq : s.closed = true → s.main = .returned
  late_wg : s.main.late = true → s.wg = 0
  result_eq : s.result = if s.main.hasResult then some s.responses else none

/-! ## The sequential functions -/

theorem hexByte_length (v : Byte) : (hexByte v).length = 2 := rfl

theorem hextable_getD_mem (n : Nat) : hextable.getD n '0' ∈ hextable := by
  by_cases h : n < 16
  · interval_cases n <;> decide
  · have hlen : hextable.length ≤ n := by
      simp only [hextable, List.length_cons, List.length_nil]
      omega
    rw [List.getD_eq_default _ _ hlen]
    decide

theorem hexByte_mem (v : Byte) : ∀ c ∈ hexByte v, c ∈ hextable := by
  intro c hc
  simp only [hexByte, List.mem_cons, List.mem_singleton, List.not_mem_nil, or_false] at hc
  rcases hc with rfl | rfl <;> exact hextable_getD_mem _

theorem flatMap_hexByte_length (src : List Byte) :
    (src.flatMap hexByte).length = 2 * src.length := by
  induction src with
  | nil => rfl
  | cons v vs ih =>
    simp only [List.flatMap_cons, List.length_append, ih, hexByte_length, List.length_cons]
    omega

theorem md5Sum_length (msg : List Byte) : (md5Sum msg).length = 16 := by
  simp [md5Sum, leBytes]

/-- C8: for every content, the empty one included, `hashResponse` is the hex
encoding of the 16 bytes `md5.Sum` gives, a string of 32 characters that are
all among `0123456789abcdef`; the content "responsebody" hashes to
`029f0e2f5b6c5e1bc52e145415d95f8c`. -/
theorem hashResponse_hex (content : List Byte) :
    hashResponse content = hexEncodeToString (md5Sum content)
    ∧ (md5Sum content).length = 16
    ∧ (hashResponse content).length = 32
    ∧ (∀ c ∈ (hashResponse content).data, c ∈ "0123456789abcdef".data)
    ∧ hashResponse (stringBytes "responsebody") = "029f0e2f5b6c5e1bc52e145415d95f8c"
    ∧ hashResponse [] = "d41d8cd98f00b204e9800998ecf8427e" := by
  refine ⟨rfl, md5Sum_length content, ?_, ?_, by decide!, by decide!⟩
  · show (String.mk ((md5Sum content).flatMap hexByte)).length = 32
    rw [String.length_mk, flatMap_hexByte_length, md5Sum_length]
  · intro c hc
    have hc' : c ∈ (md5Sum content).flatMap hexByte := hc
    rw [List.mem_flatMap] at hc'
    obtain ⟨v, _, hv⟩ := hc'
    exact hexByte_mem v c hv

/-- C4: a response with a status code below 200 or above 299 makes `makeRequest`
return the empty body and the `*RequestError` of that code, whose text is
"MyHTTP_Error: Status code " followed by the code in decimal, whatever the
declared length and the body; a status code in 200..299 never gives a
`*RequestError`. -/
theorem makeRequest_status_error (StatusCode ContentLength : Int) (Body : ReadAllResult) :
    ((StatusCode < 200 ∨ StatusCode > 299) →
      (makeRequest (.resp ⟨StatusCode, ContentLength, Body⟩)).body = []
      ∧ (makeRequest (.resp ⟨StatusCode, ContentLength, Body⟩)).err
          = some (.RequestError StatusCode)
      ∧ (GoError.RequestError StatusCode).Error
          = "MyHTTP_Error: Status code " ++ toString StatusCode
      ∧ taskMsg (.resp ⟨StatusCode, ContentLength, Body⟩)
          = "MyHTTP_Error: Status code " ++ toString StatusCode)
    ∧ ((200 ≤ StatusCode ∧ StatusCode ≤ 299) →
      ∀ code, (makeRequest (.resp ⟨StatusCode, ContentLength, Body⟩)).err
          ≠ some (.RequestError code)) := by
  constructor
  · intro h
    have hb : (decide (StatusCode < 200) || decide (StatusCode > 299)) = true := by
      simpa using h
    simp [makeRequest, taskMsg, hb, GoError.Error]
  · intro h code
    have hb : (decide (StatusCode < 200) || decide (StatusCode > 299)) = false := by
      simp only [Bool.or_eq_false_iff, decide_eq_false_iff_not]
      omega
    simp only [makeRequest, hb]
    by_cases hc : ContentLength > maxBodySize
    · simp [hc]
    · cases Body <;> simp [hc]

/-- The tests `TestMakeRequestNotFound` and `TestMakeRequestServerError`: the
status codes 404 and 500 give the texts "MyHTTP_Error: Status code 404" and
"MyHTTP_Error: Status code 500", with the empty body. -/
theorem makeRequest_status_error_witness :
    ((404 : Int) < 200 ∨ (404 : Int) > 299)
    ∧ ((500 : Int) < 200 ∨ (500 : Int) > 299)
    ∧ (GoError.RequestError 404).Error = "MyHTTP_Error: Status code 404"
    ∧ (makeRequest (.resp ⟨500, 12, .ok (stringBytes "SERVER ERROR")⟩)).body = []
    ∧ taskMsg (.resp ⟨500, 12, .ok (stringBytes "SERVER ERROR")⟩)
        = "MyHTTP_Error: Status code 500" :=
  ⟨by decide, by decide,
    ((makeRequest_status_error 404 9 (.ok (stringBytes "Not Found"))).1 (by decide)).2.2.1,
    ((makeRequest_status_error 500 12 (.ok (stringBytes "SERVER ERROR"))).1 (by decide)).1,
    ((makeRequest_status_error 500 12 (.ok (stringBytes "SERVER ERROR"))).1 (by decide)).2.2.2⟩

/-- C5: for a status code in 200..299, `makeRequest` returns the oversized-body
error without reading the body exactly when the declared length is above 10240;
its text is then "MyHTTP_Error: Response body above 10240 bytes threshold: "
followed by the declared length. With a declared length of at most 10240, or
none (`-1`), the body is read to its end: the whole body is returned, or the
read error. -/
theorem makeRequest_oversized (StatusCode ContentLength : Int) (Body : ReadAllResult)
    (h2xx : 200 ≤ StatusCode ∧ StatusCode ≤ 299) :
    (ContentLength > 10240 →
      makeRequest (.resp ⟨StatusCode, ContentLength, Body⟩)
        = ⟨[], some (oversizedError ContentLength), false, true⟩
      ∧ (oversizedError ContentLength).Error
        = "MyHTTP_Error: Response body above 10240 bytes threshold: " ++ toString ContentLength)
    ∧ (ContentLength ≤ 10240 →
      (makeRequest (.resp ⟨StatusCode, ContentLength, Body⟩)).bodyRead = true
      ∧ (∀ body, Body = .ok body →
          makeRequest (.resp ⟨StatusCode, ContentLength, Body⟩) = ⟨body, none, true, true⟩)
      ∧ (∀ err, Body = .fail err →
          makeRequest (.resp ⟨StatusCode, ContentLength, Body⟩)
            = ⟨[], some (.MyHTTPError err), true, true⟩))
    ∧ (((makeRequest (.resp ⟨StatusCode, ContentLength, Body⟩)).bodyRead = false
        ∧ (makeRequest (.resp ⟨StatusCode, ContentLength, Body⟩)).err
            = some (oversizedError ContentLength))
      ↔ ContentLength > 10240) := by
  have hb : (decide (StatusCode < 200) || decide (StatusCode > 299)) = false := by
    simp only [Bool.or_eq_false_iff, decide_eq_false_iff_not]
    omega
  have hmax : maxBodySize = 10240 := by decide
  have htxt : toString maxBodySize = "10240" := by decide
  have hbig : ContentLength > 10240 →
      makeRequest (.resp ⟨StatusCode, ContentLength, Body⟩)
        = ⟨[], some (oversizedError ContentLength), false, true⟩ := by
    intro h
    have h' : ContentLength > maxBodySize := by rw [hmax]; exact h
    simp only [makeRequest, hb, h', oversizedError, htxt]
    simp [String.append_assoc]
  have hsmall : ContentLength ≤ 10240 →
      (makeRequest (.resp ⟨StatusCode, ContentLength, Body⟩)).bodyRead = true := by
    intro h
    have h' : ¬ ContentLength > maxBodySize := by rw [hmax]; omega
    simp only [makeRequest, hb, h']
    cases Body <;> simp
  refine ⟨fun h => ⟨hbig h, ?_⟩, fun h => ⟨hsmall h, ?_, ?_⟩, ?_⟩
  · show "MyHTTP_Error: " ++ ("Response body above 10240 bytes threshold: "
        ++ toString ContentLength)
      = ("MyHTTP_Error: " ++ "Response body above 10240 bytes threshold: ")
        ++ toString ContentLength
    rw [String.append_assoc]
  · intro body hbody
    have h' : ¬ ContentLength > maxBodySize := by rw [hmax]; omega
    simp [makeRequest, hb, h', hbody]
  · intro err herr
    have h' : ¬ ContentLength > maxBodySize := by rw [hmax]; omega
    simp [makeRequest, hb, h', herr]
  · constructor
    · rintro ⟨hread, _⟩
      by_contra hle
      have := hsmall (by omega)
      rw [hread] at this
      exact Bool.noConfusion this
    · intro h
      rw [hbig h]
      exact ⟨rfl, rfl⟩

/-- Scenario E at a declared length of 10241, and the boundary 10240. -/
theorem makeRequest_oversized_witness :
    ((200 : Int) ≤ 200 ∧ (200 : Int) ≤ 299)
    ∧ (10241 : Int) > 10240
    ∧ makeRequest (.resp ⟨200, 10241, .ok []⟩)
        = ⟨[], some (oversizedError 10241), false, true⟩
    ∧ (oversizedError 10241).Error
        = "MyHTTP_Error: Response body above 10240 bytes threshold: 10241"
    ∧ (makeRequest (.resp ⟨200, 10240, .ok (stringBytes "responsebody")⟩)).bodyRead = true :=
  ⟨by decide, by decide,
    ((makeRequest_oversized 200 10241 (.ok []) (by decide)).1 (by decide)).1,
    ((makeRequest_oversized 200 10241 (.ok []) (by decide)).1 (by decide)).2,
    ((makeRequest_oversized 200 10240 (.ok (stringBytes "responsebody")) (by decide)).2.1
      (by decide)).1⟩

/-- C6: a response with status 404 is returned from before the deferred
`resp.Body.Close()` is registered, so the body is left open; on the paths
after line 56 (oversized length, read failure, success) it is closed. -/
theorem makeRequest_body_left_open :
    (makeRequest (.resp ⟨404, 9, .ok (stringBytes "Not Found")⟩)).bodyClosed = false
    ∧ (makeRequest (.resp ⟨200, 10241, .ok []⟩)).bodyClosed = true
    ∧ (makeRequest (.resp ⟨200, -1, .fail "unexpected EOF"⟩)).bodyClosed = true
    ∧ (makeRequest (.resp ⟨200, 12, .ok (stringBytes "responsebody")⟩)).bodyClosed = true := by
  decide

theorem Atoi_default : Atoi defaultMaxWorkers = some 10 := by decide

/-- C9: for a non-empty argument list, `parseArgs` succeeds with 10 workers
when the first argument is not "-parallel"; when it is, `parseArgs` succeeds
exactly when a second argument exists and `strconv.Atoi` reads it as an
integer `n` of at least 1, and then returns `n`; otherwise it returns 0, no
URL and the error 'Incorrect "-parallel" argument'. A successful `parseArgs`
returns at least 1. -/
theorem parseArgs_workers (lib : URLLib) (args : List String) (hne : args ≠ []) :
    (args.head? ≠ some "-parallel" → parseArgs lib args = (10, parseURLs lib args, none))
    ∧ (args.head? = some "-parallel" →
        (∀ n : Int, args[1]?.bind Atoi = some n → 1 ≤ n →
          parseArgs lib args = (n, parseURLs lib (args.drop 2), none))
        ∧ ((¬ ∃ n : Int, args[1]?.bind Atoi = some n ∧ 1 ≤ n) →
          parseArgs lib args = (0, [], some "Incorrect \"-parallel\" argument")))
    ∧ (∀ workers urls, parseArgs lib args = (workers, urls, none) → 1 ≤ workers) := by
  have hinc : Atoi "incorrect" = none := by decide
  have hpar : parallelArg = "-parallel" := rfl
  have hmsg : incorrectParallelErrorMsg = "Incorrect \"-parallel\" argument" := rfl
  match args, hne with
  | [a], _ =>
    by_cases ha : a = "-parallel"
    · subst ha
      simp [parseArgs, hpar, hinc, hmsg]
    · simp [parseArgs, hpar, ha, Atoi_default]
  | a :: b :: rest, _ =>
    by_cases ha : a = "-parallel"
    · subst ha
      simp only [parseArgs, hpar, hmsg]
      cases hb : Atoi b with
      | none => simp [hb]
      | some w =>
        by_cases hw : w < 1
        · simp [hb, hw]
        · simp [hb, hw]
          omega
    · simp [parseArgs, hpar, ha, Atoi_default]

/-- The calls of `TestParseArgs`. -/
theorem parseArgs_workers_witness :
    (["-parallel", "5", "https://google.com", "example.com"] : List String) ≠ []
    ∧ (∀ lib, (parseArgs lib ["-parallel", "5", "https://google.com", "example.com"]).1 = 5)
    ∧ (∀ lib, (parseArgs lib ["google.com"]).1 = 10)
    ∧ (∀ lib, parseArgs lib ["-parallel", "foobar"]
        = (0, [], some "Incorrect \"-parallel\" argument"))
    ∧ (∀ lib, parseArgs lib ["-parallel"] = (0, [], some "Incorrect \"-parallel\" argument"))
    ∧ (∀ lib, parseArgs lib ["-parallel", "-5", "google.com", "example.com"]
        = (0, [], some "Incorrect \"-parallel\" argument"))
    ∧ (∀ lib, parseArgs lib ["-parallel", "0", "google.com", "example.com"]
        = (0, [], some "Incorrect \"-parallel\" argument")) := by
  refine ⟨by decide, fun lib => ?_, fun lib => ?_, fun lib => ?_, fun lib => ?_,
    fun lib => ?_, fun lib => ?_⟩
  · rw [((parseArgs_workers lib ["-parallel", "5", "https://google.com", "example.com"]
      (by decide)).2.1 rfl).1 5 (by decide) (by decide)]
  · rw [(parseArgs_workers lib ["google.com"] (by decide)).1 (by decide)]
  · exact ((parseArgs_workers lib ["-parallel", "foobar"] (by decide)).2.1 rfl).2 (by decide)
  · exact ((parseArgs_workers lib ["-parallel"] (by decide)).2.1 rfl).2 (by decide)
  · exact ((parseArgs_workers lib ["-parallel", "-5", "google.com", "example.com"]
      (by decide)).2.1 rfl).2 (by decide)
  · exact ((parseArgs_workers lib ["-parallel", "0", "google.com", "example.com"]
      (by decide)).2.1 rfl).2 (by decide)

/-- C10: the empty argument list gives the error "You should provide at least
one URL", but the list `["-parallel", "5"]`, which holds no URL either, makes
`parseArgs` succeed with 5 workers and no URL. -/
theorem parseArgs_no_url_accepted (lib : URLLib) :
    parseArgs lib [] = (0, [], some "You should provide at least one URL")
    ∧ parseArgs lib ["-parallel", "5"] = (5, [], none) := by
  have h5 : Atoi "5" = some 5 := by decide
  constructor
  · simp [parseArgs, insufficentArgsError]
  · simp [parseArgs, parallelArg, h5, parseURLs]

/-! ## Lists of goroutines -/

theorem sum_map_set {α : Type} (f : α → Nat) (l : List α) (i : Nat) (t t' : α)
    (h : l[i]? = some t) :
    ((l.set i t').map f).sum + f t = (l.map f).sum + f t' := by
  induction l generalizing i with
  | nil => simp at h
  | cons x xs ih =>
    cases i with
    | zero =>
      simp only [List.getElem?_cons_zero, Option.some.injEq] at h
      subst h
      simp only [List.set_cons_zero, List.map_cons, List.sum_cons]
      omega
    | succ j =>
      simp only [List.getElem?_cons_succ] at h
      have := ih j h
      simp only [List.set_cons_succ, List.map_cons, List.sum_cons]
      omega

theorem le_sum_map {α : Type} (f : α → Nat) (l : List α) (i : Nat) (t : α)
    (h : l[i]? = some t) : f t ≤ (l.map f).sum := by
  induction l generalizing i with
  | nil => simp at h
  | cons x xs ih =>
    cases i with
    | zero =>
      simp only [List.getElem?_cons_zero, Option.some.injEq] at h
      subst h
      simp
    | succ j =>
      simp only [List.getElem?_cons_succ] at h
      have := ih j h
      simp only [List.map_cons, List.sum_cons]
      omega

theorem add_le_sum_map {α : Type} (f : α → Nat) (l : List α) (i j : Nat) (t u : α)
    (hij : i ≠ j) (hi : l[i]? = some t) (hj : l[j]? = some u) :
    f t + f u ≤ (l.map f).sum := by
  induction l generalizing i j with
  | nil => simp at hi
  | cons x xs ih =>
    cases i with
    | zero =>
      cases j with
      | zero => exact absurd rfl hij
      | succ j' =>
        simp only [List.getElem?_cons_zero, Option.some.injEq] at hi
        simp only [List.getElem?_cons_succ] at hj
        subst hi
        have := le_sum_map f xs j' u hj
        simp only [List.map_cons, List.sum_cons]
        omega
    | succ i' =>
      cases j with
      | zero =>
        simp only [List.getElem?_cons_zero, Option.some.injEq] at hj
        simp only [List.getElem?_cons_succ] at hi
        subst hj
        have := le_sum_map f xs i' t hi
        simp only [List.map_cons, List.sum_cons]
        omega
      | succ j' =>
        simp only [List.getElem?_cons_succ] at hi hj
        have := ih i' j' (by omega) hi hj
        simp only [List.map_cons, List.sum_cons]
        omega

theorem exists_of_sum_map_pos {α : Type} (f : α → Nat) (l : List α)
    (h : 0 < (l.map f).sum) : ∃ (i : Nat) (t : α), l[i]? = some t ∧ 0 < f t := by
  induction l with
  | nil => simp at h
  | cons x xs ih =>
    simp only [List.map_cons, List.sum_cons] at h
    by_cases hx : 0 < f x
    · exact ⟨0, x, by simp, hx⟩
    · obtain ⟨i, t, hi, ht⟩ := ih (by omega)
      exact ⟨i + 1, t, by simpa using hi, ht⟩

theorem filterMap_set_same {α β : Type} (g : α → Option β) (l : List α) (i : Nat) (t t' : α)
    (h : l[i]? = some t) (hg : g t' = g t) :
    (l.set i t').filterMap g = l.filterMap g := by
  induction l generalizing i with
  | nil => simp at h
  | cons x xs ih =>
    cases i with
    | zero =>
      simp only [List.getElem?_cons_zero, Option.some.injEq] at h
      subst h
      simp only [List.set_cons_zero, List.filterMap_cons, hg]
    | succ j =>
      simp only [List.getElem?_cons_succ] at h
      simp only [List.set_cons_succ, List.filterMap_cons, ih j h]

theorem filterMap_set_new {α β : Type} (g : α → Option β) (l : List α) (i : Nat) (t t' : α)
    (e : β) (h : l[i]? = some t) (hg : g t = none) (hg' : g t' = some e) :
    ((l.set i t').filterMap g).Perm (e :: l.filterMap g) := by
  induction l generalizing i with
  | nil => simp at h
  | cons x xs ih =>
    cases i with
    | zero =>
      simp only [List.getElem?_cons_zero, Option.some.injEq] at h
      subst h
      simp only [List.set_cons_zero, List.filterMap_cons, hg, hg']
      exact List.Perm.refl _
    | succ j =>
      simp only [List.getElem?_cons_succ] at h
      have ih' := ih j h
      simp only [List.set_cons_succ, List.filterMap_cons]
      cases hx : g x with
      | none => simpa using ih'
      | some y =>
        simp only
        exact (List.Perm.cons y ih').trans (List.Perm.swap e y _)

theorem map_set_same {α β : Type} (g : α → β) (l : List α) (i : Nat) (t t' : α)
    (h : l[i]? = some t) (hg : g t' = g t) :
    (l.set i t').map g = l.map g := by
  induction l generalizing i with
  | nil => simp at h
  | cons x xs ih =>
    cases i with
    | zero =>
      simp only [List.getElem?_cons_zero, Option.some.injEq] at h
      subst h
      simp only [List.set_cons_zero, List.map_cons, hg]
    | succ j =>
      simp only [List.getElem?_cons_succ] at h
      simp only [List.set_cons_succ, List.map_cons, ih j h]

theorem filter_length_le_sum {α : Type} (p : α → Bool) (f : α → Nat) (l : List α)
    (h : ∀ t, p t = true → 1 ≤ f t) : (l.filter p).length ≤ (l.map f).sum := by
  induction l with
  | nil => simp
  | cons x xs ih =>
    simp only [List.filter_cons, List.map_cons, List.sum_cons]
    by_cases hx : p x = true
    · have := h x hx
      simp only [hx, if_true, List.length_cons]
      omega
    · simp only [hx]
      simp only [Bool.false_eq_true, if_false]
      omega

/-! ## The invariant is kept -/

theorem Inv.init (cap : Nat) (get : Nat → String → GetResult) (urls : List String) :
    Inv cap get urls (initState urls) := by
  constructor <;> simp [initState, MainPc.slot, MainPc.wgc, MainPc.pending, MainPc.late,
    MainPc.hasResult]

/-- The invariant survives a goroutine's move that changes its own record and
the shared variables consistently. -/
theorem Inv.setTask {cap : Nat} {get : Nat → String → GetResult} {urls : List String}
    {s : State} (hinv : Inv cap get urls s) (i : Nat) (t t' : Task)
    (pool' wg' : Nat) (mutex' : Bool) (responses' : List HashedURLResponse)
    (ht : s.tasks[i]? = some t) (hurl : t'.url = t.url)
    (hpool : pool' + t.pc.slot = s.pool + t'.pc.slot)
    (hwg : wg' + t.pc.wgc = s.wg + t'.pc.wgc)
    (hmtx : (if mutex' then 1 else 0) + t.pc.mtx = (if s.mutex then 1 else 0) + t'.pc.mtx)
    (hresp : responses'.Perm ((s.tasks.set i t').filterMap Task.recorded))
    (hkeep : t.pc.wgc = 0 → responses' = s.responses ∧ t'.pc.wgc = 0)
    (hmsg : 2 ≤ t'.pc.rank → t'.msg = taskMsg (get i t'.url))
    (hseen : t'.pc = .read → t'.seen = responses')
    (hsame : responses' = s.responses ∨ t.pc.mtx = 1)
    (hle : pool' ≤ s.pool) :
    Inv cap get urls
      { s with pool := pool', wg := wg', mutex := mutex', responses := responses',
               tasks := s.tasks.set i t' } := by
  have hs := sum_map_set (fun t => t.pc.slot) s.tasks i t t' ht
  have hw := sum_map_set (fun t => t.pc.wgc) s.tasks i t t' ht
  have hm := sum_map_set (fun t => t.pc.mtx) s.tasks i t t' ht
  have hwle := le_sum_map (fun t => t.pc.wgc) s.tasks i t ht
  have hsle := le_sum_map (fun t => t.pc.slot) s.tasks i t ht
  have hmle := le_sum_map (fun t => t.pc.mtx) s.tasks i t ht
  have hpe := hinv.pool_eq
  have hwe := hinv.wg_eq
  have hme := hinv.mutex_eq
  have hlate : s.main.late = true → t.pc.wgc = 0 := by
    intro hl
    have := hinv.late_wg hl
    simp only at hwle
    omega
  refine ⟨?_, ?_, ?_, hresp, ?_, ?_, ?_, ?_, hinv.no_panic, hinv.closed_eq, ?_, ?_⟩
  · simp only at hs hsle ⊢
    omega
  · simp only at hw hwle ⊢
    omega
  · simp only at hm hmle ⊢
    omega
  · intro j u hj hrank
    simp only [List.getElem?_set] at hj
    split at hj
    · rename_i hij
      split at hj
      · simp only [Option.some.injEq] at hj
        subst hj
        subst hij
        exact hmsg hrank
      · exact absurd hj (by simp)
    · exact hinv.msg_ok j u hj hrank
  · intro j u hj hread
    simp only [List.getElem?_set] at hj
    split at hj
    · split at hj
      · simp only [Option.some.injEq] at hj
        subst hj
        exact hseen hread
      · exact absurd hj (by simp)
    · rename_i hij
      have hold := hinv.seen_ok j u hj hread
      rcases hsame with hsame | hheld
      · simp only
        rw [hsame]
        exact hold
      · -- two goroutines would hold the mutex
        have htwo := add_le_sum_map (fun t => t.pc.mtx) s.tasks i j t u hij ht hj
        have hu : u.pc.mtx = 1 := by rw [hread]; rfl
        simp only at htwo
        split at hme <;> omega
  · simp only
    rw [map_set_same (fun t => t.url) s.tasks i t t' ht hurl]
    exact hinv.urls_eq
  · have := hinv.pool_le
    simp only
    omega
  · intro hl
    have h0 := hinv.late_wg hl
    have := (hkeep (hlate hl)).2
    simp only at hl ⊢
    have := hlate hl
    omega
  · simp only
    rw [hinv.result_eq]
    by_cases hr : s.main.hasResult = true
    · have hl : s.main.late = true := by
        cases hmain : s.main <;> simp [hmain, MainPc.hasResult, MainPc.late] at hr ⊢
      rw [(hkeep (hlate hl)).1]
    · simp [hr]

theorem Inv.stepTask {cap : Nat} {get : Nat → String → GetResult} {urls : List String}
    {s s' : State} (hinv : Inv cap get urls s) (i : Nat)
    (h : stepTask get s i = some s') : Inv cap get urls s' := by
  unfold MyHTTP.stepTask at h
  cases ht : s.tasks[i]? with
  | none => simp [ht] at h
  | some t =>
    simp only [ht] at h
    have hwle := le_sum_map (fun t => t.pc.wgc) s.tasks i t ht
    have hsle := le_sum_map (fun t => t.pc.slot) s.tasks i t ht
    have hmle := le_sum_map (fun t => t.pc.mtx) s.tasks i t ht
    have hpe := hinv.pool_eq
    have hwe := hinv.wg_eq
    have hme := hinv.mutex_eq
    simp only at hwle hsle hmle
    have hkeep : ∀ t' : Task, t'.url = t.url → t'.msg = t.msg →
        (5 ≤ t'.pc.rank ↔ 5 ≤ t.pc.rank) →
        s.responses.Perm ((s.tasks.set i t').filterMap Task.recorded) := by
      intro t' hu hm hr
      rw [filterMap_set_same _ _ _ _ _ ht (by simp [Task.recorded, hu, hm, hr])]
      exact hinv.resp_perm
    cases hpc : t.pc <;> simp only [hpc] at h hwle hsle hmle
    · -- start: the goroutine enters makeRequest
      simp only [Option.some.injEq] at h
      subst h
      exact hinv.setTask i t { t with pc := .fetching } s.pool s.wg s.mutex s.responses ht rfl
        (by simp [hpc, Pc.slot]) (by simp [hpc, Pc.wgc]) (by simp [hpc, Pc.mtx])
        (hkeep _ rfl rfl (by simp [hpc, Pc.rank]))
        (by simp [hpc, Pc.wgc]) (by simp [Pc.rank]) (by simp) (Or.inl rfl) (le_refl _)
    · -- fetching: makeRequest returns, msg is set
      simp only [Option.some.injEq] at h
      subst h
      exact hinv.setTask i t { t with msg := taskMsg (get i t.url), pc := .gotMsg }
        s.pool s.wg s.mutex s.responses ht rfl
        (by simp [hpc, Pc.slot]) (by simp [hpc, Pc.wgc]) (by simp [hpc, Pc.mtx])
        (by rw [filterMap_set_same _ _ _ _ _ ht (by simp [Task.recorded, hpc, Pc.rank])]
            exact hinv.resp_perm)
        (by simp [hpc, Pc.wgc]) (by simp) (by simp) (Or.inl rfl) (le_refl _)
    · -- gotMsg: mutex.Lock()
      by_cases hmu : s.mutex = true
      · simp [hmu] at h
      · simp only [hmu, Bool.false_eq_true, if_false, Option.some.injEq] at h
        subst h
        exact hinv.setTask i t { t with pc := .locked } s.pool s.wg true s.responses ht rfl
          (by simp [hpc, Pc.slot]) (by simp [hpc, Pc.wgc]) (by simp [hpc, Pc.mtx, hmu])
          (hkeep _ rfl rfl (by simp [hpc, Pc.rank]))
          (by simp [hpc, Pc.wgc])
          (by intro _; exact hinv.msg_ok i t ht (by simp [hpc, Pc.rank])) (by simp)
          (Or.inl rfl) (le_refl _)
    · -- locked: the operand of append is read
      simp only [Option.some.injEq] at h
      subst h
      exact hinv.setTask i t { t with seen := s.responses, pc := .read } s.pool s.wg s.mutex
        s.responses ht rfl
        (by simp [hpc, Pc.slot]) (by simp [hpc, Pc.wgc]) (by simp [hpc, Pc.mtx])
        (hkeep _ rfl rfl (by simp [hpc, Pc.rank]))
        (by simp [hpc, Pc.wgc])
        (by intro _; exact hinv.msg_ok i t ht (by simp [hpc, Pc.rank])) (by simp)
        (Or.inl rfl) (le_refl _)
    · -- read: responses is assigned
      have hseen := hinv.seen_ok i t ht hpc
      simp only [Option.some.injEq] at h
      subst h
      exact hinv.setTask i t { t with pc := .appended } s.pool s.wg s.mutex
        (t.seen ++ [⟨t.url, t.msg⟩]) ht rfl
        (by simp [hpc, Pc.slot]) (by simp [hpc, Pc.wgc]) (by simp [hpc, Pc.mtx])
        (by
          have hnew := filterMap_set_new Task.recorded s.tasks i t { t with pc := .appended }
            ⟨t.url, t.msg⟩ ht (by simp [Task.recorded, hpc, Pc.rank])
            (by simp [Task.recorded, Pc.rank])
          refine List.Perm.trans ?_ hnew.symm
          rw [hseen]
          exact (List.perm_append_comm).trans (List.Perm.cons _ hinv.resp_perm))
        (by simp [hpc, Pc.wgc])
        (by intro _; exact hinv.msg_ok i t ht (by simp [hpc, Pc.rank])) (by simp)
        (Or.inr (by simp [hpc, Pc.mtx])) (le_refl _)
    · -- appended: mutex.Unlock()
      have hmu : s.mutex = true := by
        by_contra hmu
        have h1 : Pc.appended.mtx = 1 := rfl
        simp only [hmu, Bool.false_eq_true, if_false] at hme
        omega
      simp only [hmu, if_true, Option.some.injEq] at h
      subst h
      exact hinv.setTask i t { t with pc := .unlocked } s.pool s.wg false s.responses ht rfl
        (by simp [hpc, Pc.slot]) (by simp [hpc, Pc.wgc]) (by simp [hpc, Pc.mtx, hmu])
        (hkeep _ rfl rfl (by simp [hpc, Pc.rank]))
        (by simp [hpc, Pc.wgc])
        (by intro _; exact hinv.msg_ok i t ht (by simp [hpc, Pc.rank])) (by simp)
        (Or.inl rfl) (le_refl _)
    · -- unlocked: wg.Done()
      have hwg : s.wg ≠ 0 := by
        have h1 : Pc.unlocked.wgc = 1 := rfl
        omega
      simp only [hwg, if_false, Option.some.injEq] at h
      subst h
      exact hinv.setTask i t { t with pc := .doneWg } s.pool (s.wg - 1) s.mutex s.responses ht rfl
        (by simp [hpc, Pc.slot]) (by simp [hpc, Pc.wgc]; omega) (by simp [hpc, Pc.mtx])
        (hkeep _ rfl rfl (by simp [hpc, Pc.rank]))
        (by simp [hpc, Pc.wgc])
        (by intro _; exact hinv.msg_ok i t ht (by simp [hpc, Pc.rank])) (by simp)
        (Or.inl rfl) (le_refl _)
    · -- doneWg: the receive from pool
      have hpool : 0 < s.pool := by
        have h1 : Pc.doneWg.slot = 1 := rfl
        omega
      simp only [hpool, if_true, Option.some.injEq] at h
      subst h
      exact hinv.setTask i t { t with pc := .exited } (s.pool - 1) s.wg s.mutex s.responses ht rfl
        (by simp [hpc, Pc.slot]; omega) (by simp [hpc, Pc.wgc]) (by simp [hpc, Pc.mtx])
        (hkeep _ rfl rfl (by simp [hpc, Pc.rank]))
        (by simp [hpc, Pc.wgc])
        (by intro _; exact hinv.msg_ok i t ht (by simp [hpc, Pc.rank])) (by simp)
        (Or.inl rfl) (Nat.sub_le _ _)
    · -- exited
      exact absurd h (by simp)

theorem Inv.stepMain {cap : Nat} {get : Nat → String → GetResult} {urls : List String}
    {s s' : State} (hinv : Inv cap get urls s) (hcap : 1 ≤ cap)
    (h : stepMain cap s = some s') : Inv cap get urls s' := by
  unfold MyHTTP.stepMain at h
  have hpe := hinv.pool_eq
  have hwe := hinv.wg_eq
  have hme := hinv.mutex_eq
  have hue := hinv.urls_eq
  have hlw := hinv.late_wg
  have hre := hinv.result_eq
  have hce := hinv.closed_eq
  have hpl := hinv.pool_le
  cases hmain : s.main with
  | loop rest =>
    simp only [hmain, MainPc.slot, MainPc.wgc, MainPc.pending, MainPc.late,
      MainPc.hasResult] at h hpe hwe hue hlw hre hce
    have hclosed : s.closed = false := by
      cases hc : s.closed
      · rfl
      · exact absurd (hce hc) (by simp)
    cases rest with
    | nil =>
      by_cases hwg : s.wg = 0
      · rw [if_pos hwg] at h
        simp only [Option.some.injEq] at h
        subst h
        refine ⟨?_, ?_, hme, hinv.resp_perm, hinv.msg_ok, hinv.seen_ok, ?_, hpl, hinv.no_panic, ?_, ?_, ?_⟩
        · simpa [MainPc.slot] using hpe
        · simpa [MainPc.wgc] using hwe
        · simpa [MainPc.pending] using hue
        · simp [hclosed]
        · intro _
          exact hwg
        · simpa [MainPc.hasResult] using hre
      · simp [hwg] at h
    | cons url rest =>
      simp only [hclosed, Bool.false_eq_true, if_false] at h
      by_cases hlt : s.pool < cap
      · simp only [hlt, if_true, Option.some.injEq] at h
        subst h
        refine ⟨?_, ?_, hme, hinv.resp_perm, hinv.msg_ok, hinv.seen_ok, ?_, ?_, hinv.no_panic, ?_, ?_, ?_⟩
        · simp only [MainPc.slot]
          omega
        · simpa [MainPc.wgc] using hwe
        · simpa [MainPc.pending] using hue
        · exact hlt
        · simp [hclosed]
        · simp [MainPc.late]
        · simpa [MainPc.hasResult] using hre
      · have hp0 : s.pool ≠ 0 := by omega
        simp [hlt, hp0] at h
  | add url rest =>
    simp only [hmain, MainPc.slot, MainPc.wgc, MainPc.pending, MainPc.late,
      MainPc.hasResult, Option.some.injEq] at h hpe hwe hue hlw hre hce
    have hclosed : s.closed = false := by
      cases hc : s.closed
      · rfl
      · exact absurd (hce hc) (by simp)
    subst h
    refine ⟨?_, ?_, hme, hinv.resp_perm, hinv.msg_ok, hinv.seen_ok, ?_, hpl, hinv.no_panic, ?_, ?_, ?_⟩
    · simpa [MainPc.slot] using hpe
    · simp only [MainPc.wgc]
      omega
    · simpa [MainPc.pending] using hue
    · simp [hclosed]
    · simp [MainPc.late]
    · simpa [MainPc.hasResult] using hre
  | spawn url rest =>
    simp only [hmain, MainPc.slot, MainPc.wgc, MainPc.pending, MainPc.late,
      MainPc.hasResult, Option.some.injEq] at h hpe hwe hue hlw hre hce
    have hclosed : s.closed = false := by
      cases hc : s.closed
      · rfl
      · exact absurd (hce hc) (by simp)
    subst h
    refine ⟨?_, ?_, ?_, ?_, ?_, ?_, ?_, hpl, hinv.no_panic, ?_, ?_, ?_⟩
    · have h1 : Pc.start.slot = 1 := rfl
      simp only [List.map_append, List.sum_append, List.map_cons, List.map_nil, List.sum_cons,
        List.sum_nil, MainPc.slot, h1]
      omega
    · have h1 : Pc.start.wgc = 1 := rfl
      simp only [List.map_append, List.sum_append, List.map_cons, List.map_nil, List.sum_cons,
        List.sum_nil, MainPc.wgc, h1]
      omega
    · have h1 : Pc.start.mtx = 0 := rfl
      simp only [List.map_append, List.sum_append, List.map_cons, List.map_nil, List.sum_cons,
        List.sum_nil, h1]
      omega
    · have hnew : List.filterMap Task.recorded [(⟨url, "", [], .start⟩ : Task)] = [] := by
        simp [Task.recorded, Pc.rank]
      simp only [List.filterMap_append, hnew, List.append_nil]
      exact hinv.resp_perm
    · intro j u hj hrank
      by_cases hjl : j < s.tasks.length
      · rw [List.getElem?_append_left hjl] at hj
        exact hinv.msg_ok j u hj hrank
      · rw [List.getElem?_append_right (by omega)] at hj
        cases hk : j - s.tasks.length with
        | zero =>
          simp only [hk, List.getElem?_cons_zero, Option.some.injEq] at hj
          subst hj
          simp [Pc.rank] at hrank
        | succ k => simp [hk] at hj
    · intro j u hj hread
      by_cases hjl : j < s.tasks.length
      · rw [List.getElem?_append_left hjl] at hj
        exact hinv.seen_ok j u hj hread
      · rw [List.getElem?_append_right (by omega)] at hj
        cases hk : j - s.tasks.length with
        | zero =>
          simp only [hk, List.getElem?_cons_zero, Option.some.injEq] at hj
          subst hj
          simp at hread
        | succ k => simp [hk] at hj
    · simp only [List.map_append, List.map_cons, List.map_nil, MainPc.pending,
        List.append_assoc, List.singleton_append]
      exact hue
    · simp [hclosed]
    · simp [MainPc.late]
    · simpa [MainPc.hasResult] using hre
  | ret =>
    simp only [hmain, MainPc.slot, MainPc.wgc, MainPc.pending, MainPc.late,
      MainPc.hasResult, Option.some.injEq] at h hpe hwe hue hlw hre hce
    have hclosed : s.closed = false := by
      cases hc : s.closed
      · rfl
      · exact absurd (hce hc) (by simp)
    subst h
    refine ⟨?_, ?_, hme, hinv.resp_perm, hinv.msg_ok, hinv.seen_ok, ?_, hpl, hinv.no_panic, ?_, ?_, ?_⟩
    · simpa [MainPc.slot] using hpe
    · simpa [MainPc.wgc] using hwe
    · simpa [MainPc.pending] using hue
    · simp [hclosed]
    · intro _
      exact hlw trivial
    · simp [MainPc.hasResult]
  | closing =>
    simp only [hmain, MainPc.slot, MainPc.wgc, MainPc.pending, MainPc.late,
      MainPc.hasResult] at h hpe hwe hue hlw hre hce
    have hclosed : s.closed = false := by
      cases hc : s.closed
      · rfl
      · exact absurd (hce hc) (by simp)
    simp only [hclosed, Bool.false_eq_true, if_false, Option.some.injEq] at h
    subst h
    refine ⟨?_, ?_, hme, hinv.resp_perm, hinv.msg_ok, hinv.seen_ok, ?_, hpl, hinv.no_panic, ?_, ?_, ?_⟩
    · simpa [MainPc.slot] using hpe
    · simpa [MainPc.wgc] using hwe
    · simpa [MainPc.pending] using hue
    · simp
    · intro _
      exact hlw trivial
    · simpa [MainPc.hasResult] using hre
  | returned =>
    simp [hmain] at h

theorem Inv.step {cap : Nat} {get : Nat → String → GetResult} {urls : List String}
    {s s' : State} (hinv : Inv cap get urls s) (hcap : 1 ≤ cap) (a : Action)
    (h : step cap get s a = some s') : Inv cap get urls s' := by
  unfold MyHTTP.step at h
  simp only [hinv.no_panic, Bool.false_eq_true, if_false] at h
  cases a with
  | main => exact hinv.stepMain hcap h
  | task i => exact hinv.stepTask i h

theorem Inv.exec {cap : Nat} {get : Nat → String → GetResult} {urls : List String}
    (hcap : 1 ≤ cap) (as : List Action) :
    ∀ {s s' : State}, Inv cap get urls s → exec cap get s as = some s' → Inv cap get urls s' := by
  induction as with
  | nil =>
    intro s s' hinv h
    simp only [MyHTTP.exec, Option.some.injEq] at h
    subst h
    exact hinv
  | cons a as ih =>
    intro s s' hinv h
    simp only [MyHTTP.exec] at h
    cases hstep : MyHTTP.step cap get s a with
    | none => simp [hstep] at h
    | some s₁ =>
      simp only [hstep] at h
      exact ih (hinv.step hcap a hstep) h

/-! ## Termination and absence of deadlock -/

theorem measure_stepTask {get : Nat → String → GetResult} {s s' : State} (i : Nat)
    (h : stepTask get s i = some s') (hp : s'.panicked = false) :
    measure s' < measure s := by
  unfold MyHTTP.stepTask at h
  cases ht : s.tasks[i]? with
  | none => simp [ht] at h
  | some t =>
    simp only [ht] at h
    have hle := le_sum_map (fun t => 8 - t.pc.rank) s.tasks i t ht
    have key : ∀ t' : Task, t'.pc.rank = t.pc.rank + 1 → t.pc.rank ≤ 7 →
        (List.map (fun t => 8 - t.pc.rank) (s.tasks.set i t')).sum
          < (List.map (fun t => 8 - t.pc.rank) s.tasks).sum := by
      intro t' hr h7
      have := sum_map_set (fun t => 8 - t.pc.rank) s.tasks i t t' ht
      simp only at this hle
      omega
    cases hpc : t.pc <;> simp only [hpc] at h
    · simp only [Option.some.injEq] at h
      subst h
      have := key { t with pc := .fetching } (by simp [hpc, Pc.rank]) (by simp [hpc, Pc.rank])
      simp only [measure]
      omega
    · simp only [Option.some.injEq] at h
      subst h
      have := key { t with msg := taskMsg (get i t.url), pc := .gotMsg }
        (by simp [hpc, Pc.rank]) (by simp [hpc, Pc.rank])
      simp only [measure]
      omega
    · by_cases hmu : s.mutex = true
      · simp [hmu] at h
      · simp only [hmu, Bool.false_eq_true, if_false, Option.some.injEq] at h
        subst h
        have := key { t with pc := .locked } (by simp [hpc, Pc.rank]) (by simp [hpc, Pc.rank])
        simp only [measure]
        omega
    · simp only [Option.some.injEq] at h
      subst h
      have := key { t with seen := s.responses, pc := .read }
        (by simp [hpc, Pc.rank]) (by simp [hpc, Pc.rank])
      simp only [measure]
      omega
    · simp only [Option.some.injEq] at h
      subst h
      have := key { t with pc := .appended } (by simp [hpc, Pc.rank]) (by simp [hpc, Pc.rank])
      simp only [measure]
      omega
    · by_cases hmu : s.mutex = true
      · simp only [hmu, if_true, Option.some.injEq] at h
        subst h
        have := key { t with pc := .unlocked } (by simp [hpc, Pc.rank]) (by simp [hpc, Pc.rank])
        simp only [measure]
        omega
      · simp only [hmu, Bool.false_eq_true, if_false, Option.some.injEq] at h
        subst h
        simp at hp
    · by_cases hwg : s.wg = 0
      · rw [if_pos hwg] at h
        simp only [Option.some.injEq] at h
        subst h
        simp at hp
      · rw [if_neg hwg] at h
        simp only [Option.some.injEq] at h
        subst h
        have := key { t with pc := .doneWg } (by simp [hpc, Pc.rank]) (by simp [hpc, Pc.rank])
        simp only [measure]
        omega
    · by_cases hpool : 0 < s.pool
      · rw [if_pos hpool] at h
        simp only [Option.some.injEq] at h
        subst h
        have := key { t with pc := .exited } (by simp [hpc, Pc.rank]) (by simp [hpc, Pc.rank])
        simp only [measure]
        omega
      · rw [if_neg hpool] at h
        by_cases hc : s.closed = true
        · rw [if_pos hc] at h
          simp only [Option.some.injEq] at h
          subst h
          have := key { t with pc := .exited } (by simp [hpc, Pc.rank]) (by simp [hpc, Pc.rank])
          simp only [measure]
          omega
        · rw [if_neg hc] at h
          exact absurd h (by simp)
    · exact absurd h (by simp)

theorem measure_stepMain {cap : Nat} {s s' : State} (hcap : 1 ≤ cap)
    (h : stepMain cap s = some s') (hp : s'.panicked = false) :
    measure s' < measure s := by
  unfold MyHTTP.stepMain at h
  cases hmain : s.main with
  | loop rest =>
    simp only [hmain] at h
    cases rest with
    | nil =>
      by_cases hwg : s.wg = 0
      · rw [if_pos hwg] at h
        simp only [Option.some.injEq] at h
        subst h
        simp [measure, hmain, MainPc.left]
      · simp [hwg] at h
    | cons url rest =>
      by_cases hc : s.closed = true
      · simp only [hc, if_true, Option.some.injEq] at h
        subst h
        simp at hp
      · simp only [hc, Bool.false_eq_true, if_false] at h
        by_cases hlt : s.pool < cap
        · simp only [hlt, if_true, Option.some.injEq] at h
          subst h
          simp only [measure, hmain, MainPc.left, List.length_cons]
          omega
        · have hp0 : s.pool ≠ 0 := by omega
          simp [hlt, hp0] at h
  | add url rest =>
    simp only [hmain, Option.some.injEq] at h
    subst h
    simp [measure, hmain, MainPc.left]
  | spawn url rest =>
    simp only [hmain, Option.some.injEq] at h
    subst h
    simp [measure, hmain, MainPc.left, Pc.rank]
    omega
  | ret =>
    simp only [hmain, Option.some.injEq] at h
    subst h
    simp [measure, hmain, MainPc.left]
  | closing =>
    simp only [hmain] at h
    by_cases hc : s.closed = true
    · rw [if_pos hc] at h
      simp only [Option.some.injEq] at h
      subst h
      simp at hp
    · rw [if_neg hc] at h
      simp only [Option.some.injEq] at h
      subst h
      simp [measure, hmain, MainPc.left]
  | returned =>
    simp [hmain] at h

theorem measure_step {cap : Nat} {get : Nat → String → GetResult} {s s' : State}
    (hcap : 1 ≤ cap) (a : Action) (h : step cap get s a = some s')
    (hp : s'.panicked = false) : measure s' < measure s := by
  unfold MyHTTP.step at h
  by_cases hs : s.panicked = true
  · simp [hs] at h
  · simp only [hs, Bool.false_eq_true, if_false] at h
    cases a with
    | main => exact measure_stepMain hcap h hp
    | task i => exact measure_stepTask i h hp

theorem main_mem_enabledActions {cap : Nat} {get : Nat → String → GetResult} {s : State}
    (h : (step cap get s .main).isSome = true) : Action.main ∈ enabledActions cap get s := by
  simp [enabledActions, h]

theorem task_mem_enabledActions {cap : Nat} {get : Nat → String → GetResult} {s : State}
    (i : Nat) (h : (step cap get s (.task i)).isSome = true) :
    Action.task i ∈ enabledActions cap get s := by
  have hlt : i < s.tasks.length := by
    by_contra hge
    have hnone : s.tasks[i]? = none := List.getElem?_eq_none (by omega)
    have : step cap get s (.task i) = none := by
      simp only [step, stepTask, hnone]
      split <;> rfl
    rw [this] at h
    exact absurd h (by simp)
  simp only [enabledActions, List.mem_filter, List.mem_cons, List.mem_map, List.mem_range]
  exact ⟨Or.inr ⟨i, hlt, rfl⟩, h⟩

theorem isSome_of_mem_enabledActions {cap : Nat} {get : Nat → String → GetResult} {s : State}
    {a : Action} (h : a ∈ enabledActions cap get s) : (step cap get s a).isSome = true := by
  simp only [enabledActions, List.mem_filter] at h
  exact h.2

theorem sum_map_eq_zero {α : Type} (f : α → Nat) (l : List α)
    (h : ∀ (i : Nat) (t : α), l[i]? = some t → f t = 0) : (l.map f).sum = 0 := by
  by_contra hne
  obtain ⟨i, t, hi, ht⟩ := exists_of_sum_map_pos f l (by omega)
  have := h i t hi
  omega

/-- A goroutine that has not ended, and does not wait for the mutex while
another one holds it, can move. -/
theorem Inv.task_can_move {cap : Nat} {get : Nat → String → GetResult} {urls : List String}
    {s : State} (hinv : Inv cap get urls s) (i : Nat) (t : Task)
    (ht : s.tasks[i]? = some t) (hne : t.pc ≠ .exited)
    (hlock : t.pc = .gotMsg → s.mutex = false) :
    (MyHTTP.step cap get s (.task i)).isSome = true := by
  have hsle := le_sum_map (fun t => t.pc.slot) s.tasks i t ht
  have hpe := hinv.pool_eq
  simp only [MyHTTP.step, hinv.no_panic, Bool.false_eq_true, if_false, MyHTTP.stepTask, ht]
  cases hpc : t.pc with
  | start => simp
  | fetching => simp
  | gotMsg => simp [hlock hpc]
  | locked => simp
  | read => simp
  | appended =>
    simp only
    split <;> rfl
  | unlocked =>
    simp only
    split <;> rfl
  | doneWg =>
    have h1 : Pc.doneWg.slot = 1 := rfl
    have hpool : 0 < s.pool := by
      simp only [hpc] at hsle
      omega
    simp [hpool]
  | exited => exact absurd hpc hne

/-- Absence of deadlock: while `makeRequests` has not returned, some goroutine can move. -/
theorem Inv.progress {cap : Nat} {get : Nat → String → GetResult} {urls : List String}
    {s : State} (hinv : Inv cap get urls s) (hcap : 1 ≤ cap) (hmain : s.main ≠ .returned) :
    enabledActions cap get s ≠ [] := by
  by_cases hex : ∃ (i : Nat) (t : Task), s.tasks[i]? = some t ∧ t.pc ≠ .exited
  · obtain ⟨i, t, ht, hne⟩ := hex
    by_cases hlock : t.pc = .gotMsg → s.mutex = false
    · exact List.ne_nil_of_mem
        (task_mem_enabledActions i (hinv.task_can_move i t ht hne hlock))
    · -- the mutex is held: its holder can move
      have hmu : s.mutex = true := by
        by_contra hmu
        exact hlock (fun _ => by simpa using hmu)
      have hme := hinv.mutex_eq
      simp only [hmu, if_true] at hme
      obtain ⟨j, u, hu, hpos⟩ := exists_of_sum_map_pos (fun t => t.pc.mtx) s.tasks (by omega)
      have hune : u.pc ≠ .exited := by
        intro he
        simp [he, Pc.mtx] at hpos
      have hulock : u.pc = .gotMsg → s.mutex = false := by
        intro he
        simp [he, Pc.mtx] at hpos
      exact List.ne_nil_of_mem
        (task_mem_enabledActions j (hinv.task_can_move j u hu hune hulock))
  · -- every goroutine has ended: the caller can move
    have hall : ∀ (i : Nat) (t : Task), s.tasks[i]? = some t → t.pc = .exited := by
      intro i t ht
      by_contra hne
      exact hex ⟨i, t, ht, hne⟩
    have hslot := sum_map_eq_zero (fun t => t.pc.slot) s.tasks
      (fun i t ht => by simp [hall i t ht, Pc.slot])
    have hwgc := sum_map_eq_zero (fun t => t.pc.wgc) s.tasks
      (fun i t ht => by simp [hall i t ht, Pc.wgc])
    have hpe := hinv.pool_eq
    have hwe := hinv.wg_eq
    have hce := hinv.closed_eq
    apply List.ne_nil_of_mem (a := Action.main)
    apply main_mem_enabledActions
    simp only [MyHTTP.step, hinv.no_panic, Bool.false_eq_true, if_false, MyHTTP.stepMain]
    cases hm : s.main with
    | loop rest =>
      simp only [hm, MainPc.slot, MainPc.wgc] at hpe hwe hce
      have hclosed : s.closed = false := by
        cases hc : s.closed
        · rfl
        · exact absurd (hce hc) (by simp)
      cases rest with
      | nil =>
        have hwg : s.wg = 0 := by omega
        simp [hwg]
      | cons url rest =>
        have hlt : s.pool < cap := by omega
        simp [hclosed, hlt]
    | add url rest => simp
    | spawn url rest => simp
    | ret => simp
    | closing =>
      simp only
      split <;> rfl
    | returned => exact absurd hm hmain

/-- Every run under a scheduler ends with `makeRequests` returned, within the
number of steps `measure` gives, in a state that satisfies the invariant. -/
theorem Inv.runSched {cap : Nat} {get : Nat → String → GetResult} {urls : List String}
    (hcap : 1 ≤ cap) (sched : Nat → Nat) (fuel : Nat) :
    ∀ (k : Nat) (s : State), Inv cap get urls s → measure s ≤ fuel →
      Inv cap get urls (MyHTTP.runSched cap get sched fuel k s)
      ∧ (MyHTTP.runSched cap get sched fuel k s).main = .returned := by
  induction fuel with
  | zero =>
    intro k s hinv hm
    refine ⟨hinv, ?_⟩
    simp only [MyHTTP.runSched]
    cases hmain : s.main <;> simp [measure, hmain, MainPc.left] at hm ⊢
  | succ fuel ih =>
    intro k s hinv hm
    simp only [MyHTTP.runSched]
    cases hen : enabledActions cap get s with
    | nil =>
      simp only
      refine ⟨hinv, ?_⟩
      by_contra hmain
      exact hinv.progress hcap hmain hen
    | cons a as =>
      simp only
      have hmem : (a :: as).getD (sched k % (as.length + 1)) a ∈ enabledActions cap get s := by
        rw [hen, List.getD_eq_getElem _ _ (by
          simp only [List.length_cons]
          exact Nat.mod_lt _ (Nat.succ_pos _))]
        exact List.getElem_mem _
      have hsome := isSome_of_mem_enabledActions hmem
      cases hstep : MyHTTP.step cap get s ((a :: as).getD (sched k % (as.length + 1)) a) with
      | none =>
        have hnone : (none : Option State).isSome = true := hstep ▸ hsome
        exact absurd hnone (by simp)
      | some s₁ =>
        simp only
        have hinv₁ := hinv.step hcap _ hstep
        have hlt := measure_step hcap _ hstep hinv₁.no_panic
        exact ih (k + 1) s₁ hinv₁ (by omega)

/-- Every schedule is finite: its length and the steps left add up to at most
the steps left at its start. -/
theorem exec_measure {cap : Nat} {get : Nat → String → GetResult} {urls : List String}
    (hcap : 1 ≤ cap) (as : List Action) :
    ∀ {s s' : State}, Inv cap get urls s → exec cap get s as = some s' →
      as.length + measure s' ≤ measure s := by
  induction as with
  | nil =>
    intro s s' _ h
    simp only [exec, Option.some.injEq] at h
    subst h
    simp
  | cons a as ih =>
    intro s s' hinv h
    simp only [exec] at h
    cases hstep : step cap get s a with
    | none => simp [hstep] at h
    | some s₁ =>
      simp only [hstep] at h
      have hinv₁ := hinv.step hcap a hstep
      have hlt := measure_step hcap a hstep hinv₁.no_panic
      have := ih hinv₁ h
      simp only [List.length_cons]
      omega

/-! ## What `makeRequests` returns -/

theorem expectedFrom_map_url (get : Nat → String → GetResult) (urls : List String) :
    ∀ k : Nat, (expectedFrom get k urls).map (fun e => e.url) = urls := by
  induction urls with
  | nil => intro k; rfl
  | cons u us ih =>
    intro k
    simp only [expectedFrom, List.map_cons, ih]

theorem filterMap_recorded_eq (get : Nat → String → GetResult) (l : List Task) :
    ∀ k : Nat, (∀ (i : Nat) (t : Task), l[i]? = some t →
        5 ≤ t.pc.rank ∧ t.msg = taskMsg (get (k + i) t.url)) →
      l.filterMap Task.recorded = expectedFrom get k (l.map (fun t => t.url)) := by
  induction l with
  | nil => intro k _; rfl
  | cons x xs ih =>
    intro k h
    have hx := h 0 x (by simp)
    have hxs := ih (k + 1) (fun i t ht => by
      have := h (i + 1) t (by simpa using ht)
      rw [show k + 1 + i = k + (i + 1) by omega]
      exact this)
    have hrec : x.recorded = some ⟨x.url, x.msg⟩ := by simp [Task.recorded, hx.1]
    rw [List.filterMap_cons, hrec]
    simp only [List.map_cons, expectedFrom, hxs]
    rw [hx.2]
    simp

/-- Once `wg.Wait()` has returned, `responses` holds, in some order, the entry
of every position of `urls`. -/
theorem Inv.responses_complete {cap : Nat} {get : Nat → String → GetResult}
    {urls : List String} {s : State} (hinv : Inv cap get urls s) (hlate : s.main.late = true) :
    s.responses.Perm (expectedFrom get 0 urls) := by
  have hwg := hinv.late_wg hlate
  have hwe := hinv.wg_eq
  have hue := hinv.urls_eq
  have hpend : s.main.pending = [] := by
    cases hm : s.main <;> simp [hm, MainPc.late, MainPc.pending] at hlate ⊢
  rw [hpend, List.append_nil] at hue
  have hall : ∀ (i : Nat) (t : Task), s.tasks[i]? = some t →
      5 ≤ t.pc.rank ∧ t.msg = taskMsg (get (0 + i) t.url) := by
    intro i t ht
    have hle := le_sum_map (fun t => t.pc.wgc) s.tasks i t ht
    have h0 : t.pc.wgc = 0 := by
      simp only at hle
      omega
    have hrank : 7 ≤ t.pc.rank := by
      cases hpc : t.pc <;> simp [hpc, Pc.wgc, Pc.rank] at h0 ⊢
    rw [Nat.zero_add]
    exact ⟨by omega, hinv.msg_ok i t ht (by omega)⟩
  have heq := filterMap_recorded_eq get s.tasks 0 hall
  rw [hue] at heq
  rw [← heq]
  exact hinv.resp_perm

theorem toNat_pos_of_one_le (maxWorkers : Int) (h : 1 ≤ maxWorkers) : 1 ≤ maxWorkers.toNat := by
  omega

/-- With at least one worker, `makeRequests` returns under every scheduler, and
what it returns is, in some order, the entry of every position of `urls`. -/
theorem makeRequests_returns (rt : Runtime) (urls : List String) (maxWorkers : Int)
    (hW : 1 ≤ maxWorkers) (hok : rt.chanOK maxWorkers = true)
    (get : Nat → String → GetResult) (sched : Nat → Nat) :
    ∃ r, makeRequests rt urls maxWorkers get sched = .returned r
      ∧ r.Perm (expectedFrom get 0 urls) := by
  have hcap := toNat_pos_of_one_le maxWorkers hW
  have hrun := @Inv.runSched maxWorkers.toNat get urls hcap sched (stepsLeft urls) 0 (initState urls)
    (Inv.init maxWorkers.toNat get urls) (by simp [measure, initState, MainPc.left, stepsLeft])
  obtain ⟨hinv, hmain⟩ := hrun
  have hres := hinv.result_eq
  rw [hmain] at hres
  simp only [MainPc.hasResult, if_true] at hres
  refine ⟨_, ?_, hinv.responses_complete (by rw [hmain]; rfl)⟩
  simp only [makeRequests, hok, Bool.true_eq_false, if_false, hinv.no_panic,
    Bool.false_eq_true, hres]

/-- In every state a schedule leads to, a result that is set is, in some
order, the entry of every position of `urls`. -/
theorem exec_result (urls : List String) (maxWorkers : Int) (hW : 1 ≤ maxWorkers)
    (get : Nat → String → GetResult) (as : List Action) (s : State)
    (r : List HashedURLResponse)
    (h : exec maxWorkers.toNat get (initState urls) as = some s) (hr : s.result = some r) :
    r.Perm (expectedFrom get 0 urls) := by
  have hcap := toNat_pos_of_one_le maxWorkers hW
  have hinv := Inv.exec hcap as (Inv.init maxWorkers.toNat get urls) h
  have hres := hinv.result_eq
  rw [hr] at hres
  by_cases hhas : s.main.hasResult = true
  · simp only [hhas, if_true, Option.some.injEq] at hres
    rw [hres]
    apply hinv.responses_complete
    cases hm : s.main <;> simp [hm, MainPc.hasResult, MainPc.late] at hhas ⊢
  · simp [hhas] at hres

theorem perm_expected_urls (get : Nat → String → GetResult) (urls : List String)
    (r : List HashedURLResponse) (h : r.Perm (expectedFrom get 0 urls)) :
    (r.map (fun e => e.url)).Perm urls ∧ r.length = urls.length := by
  have hmap := h.map (fun e => e.url)
  rw [expectedFrom_map_url] at hmap
  refine ⟨hmap, ?_⟩
  have := hmap.length_eq
  simpa using this

/-- Under every runtime a worker limit whose buffer of `8 * maxWorkers` bytes
overflows, such as 9223372036854775807, makes `makeRequests` panic at line 76. -/
theorem makeRequests_refused (rt : Runtime) (urls : List String) (maxWorkers : Int)
    (h : 2 ^ 64 ≤ 8 * maxWorkers) (get : Nat → String → GetResult) (sched : Nat → Nat) :
    makeRequests rt urls maxWorkers get sched = .panic := by
  simp [makeRequests, rt.overflow maxWorkers h]

/-- C1, as stated, fails: `parseArgs` accepts 9223372036854775807 workers, and
with that many `make(chan int, maxWorkers)` panics, so `makeRequests` returns
no entry at all. -/
theorem makeRequests_huge_workers_panics :
    parseArgs noParse ["-parallel", "9223372036854775807", "http://a"]
        = (9223372036854775807, ["http://a"], none)
    ∧ (1 : Int) ≤ 9223372036854775807
    ∧ makeRequests linuxAmd64 ["http://a"] 9223372036854775807 (fun _ _ => .fail "refused")
        (fun _ => 0) = .panic := by
  decide

/-- C1, amended: with at least one worker and a worker limit the runtime
accepts as the size of the channel, whatever each request answers and whatever
the scheduler does, `makeRequests` returns, and the URLs of the returned
entries are the input URLs with the same multiplicities, so there are as many
entries as input URLs; the same holds for the result in every state that any
schedule reaches. No schedule is longer than `stepsLeft urls`, none panics,
and in every state a schedule reaches some goroutine can move until
`makeRequests` has returned. -/
theorem makeRequests_one_entry_per_url (rt : Runtime) (urls : List String) (maxWorkers : Int)
    (hW : 1 ≤ maxWorkers) (hok : rt.chanOK maxWorkers = true)
    (get : Nat → String → GetResult) :
    (∀ sched : Nat → Nat, ∃ r, makeRequests rt urls maxWorkers get sched = .returned r
        ∧ (r.map (fun e => e.url)).Perm urls ∧ r.length = urls.length)
    ∧ (∀ (as : List Action) (s : State) (r : List HashedURLResponse),
        exec maxWorkers.toNat get (initState urls) as = some s → s.result = some r →
        (r.map (fun e => e.url)).Perm urls ∧ r.length = urls.length)
    ∧ (∀ (as : List Action) (s : State),
        exec maxWorkers.toNat get (initState urls) as = some s →
        as.length ≤ stepsLeft urls ∧ s.panicked = false
        ∧ (s.main ≠ .returned → enabledActions maxWorkers.toNat get s ≠ [])) := by
  have hcap := toNat_pos_of_one_le maxWorkers hW
  refine ⟨?_, ?_, ?_⟩
  · intro sched
    obtain ⟨r, hr, hperm⟩ := makeRequests_returns rt urls maxWorkers hW hok get sched
    exact ⟨r, hr, perm_expected_urls get urls r hperm⟩
  · intro as s r h hr
    exact perm_expected_urls get urls r (exec_result urls maxWorkers hW get as s r h hr)
  · intro as s h
    have hinit := Inv.init maxWorkers.toNat get urls
    have hinv := Inv.exec hcap as hinit h
    have hlen := exec_measure hcap as hinit h
    have h0 : measure (initState urls) = stepsLeft urls := by
      simp [measure, initState, MainPc.left, stepsLeft]
    exact ⟨by omega, hinv.no_panic, fun hmain => hinv.progress hcap hmain⟩

/-- A URL list with a duplicate, two workers, every request failing. -/
theorem makeRequests_one_entry_per_url_witness :
    (1 : Int) ≤ 2 ∧ linuxAmd64.chanOK 2 = true
    ∧ ∃ r, makeRequests linuxAmd64 ["http://a", "http://b", "http://a"] 2
          (fun _ _ => .fail "refused") (fun k => k) = .returned r
        ∧ (r.map (fun e => e.url)).Perm ["http://a", "http://b", "http://a"]
        ∧ r.length = ["http://a", "http://b", "http://a"].length :=
  ⟨by decide, by decide,
    (makeRequests_one_entry_per_url linuxAmd64 ["http://a", "http://b", "http://a"] 2
      (by decide) (by decide) (fun _ _ => .fail "refused")).1 (fun k => k)⟩

/-- The code's message of a fetch is the outcome text of the specification. -/
theorem taskMsg_eq_specOutcome (get : GetResult) : taskMsg get = specOutcome get := by
  cases get with
  | fail err => simp [taskMsg, makeRequest, specOutcome, GoError.Error]
  | resp r =>
    obtain ⟨code, len, body⟩ := r
    have hmax : maxBodySize = 10240 := by decide
    have htxt : toString maxBodySize = "10240" := by decide
    by_cases hs : code < 200 ∨ 299 < code
    · have hb : (decide (code < 200) || decide (code > 299)) = true := by simpa using hs
      simp [taskMsg, makeRequest, specOutcome, GoError.Error, hb, hs]
    · have hb : (decide (code < 200) || decide (code > 299)) = false := by
        simp only [Bool.or_eq_false_iff, decide_eq_false_iff_not]
        omega
      by_cases hl : 10240 < len
      · have hl' : len > maxBodySize := by rw [hmax]; exact hl
        simp only [taskMsg, makeRequest, specOutcome, GoError.Error, hb, hs, hl, hl', htxt]
        simp only [String.append_assoc, Bool.false_eq_true, if_false, if_true]
        show "MyHTTP_Error: " ++ ("Response body above 10240 bytes threshold: "
            ++ toString len)
          = ("MyHTTP_Error: " ++ "Response body above 10240 bytes threshold: ")
            ++ toString len
        rw [String.append_assoc]
      · have hl' : ¬ len > maxBodySize := by rw [hmax]; exact hl
        cases body with
        | fail err =>
          simp [taskMsg, makeRequest, specOutcome, GoError.Error, hb, hs, hl, hl']
        | ok bytes =>
          simp [taskMsg, makeRequest, specOutcome, hashResponse, hb, hs, hl, hl']

theorem expectedFrom_eq_specEntries (get : Nat → String → GetResult) (urls : List String) :
    ∀ k : Nat, expectedFrom get k urls = specEntries get k urls := by
  induction urls with
  | nil => intro k; rfl
  | cons u us ih =>
    intro k
    simp only [expectedFrom, specEntries, ih, taskMsg_eq_specOutcome]

theorem mem_expectedFrom (get : Nat → String → GetResult) (urls : List String)
    (e : HashedURLResponse) :
    ∀ k : Nat, e ∈ expectedFrom get k urls →
      ∃ i : Nat, urls[i]? = some e.url ∧ e.result = taskMsg (get (k + i) e.url) := by
  induction urls with
  | nil =>
    intro k h
    simp [expectedFrom] at h
  | cons u us ih =>
    intro k h
    simp only [expectedFrom, List.mem_cons] at h
    rcases h with h | h
    · subst h
      exact ⟨0, by simp, by simp⟩
    · obtain ⟨i, hi, hres⟩ := ih (k + 1) h
      refine ⟨i + 1, by simpa using hi, ?_⟩
      rw [show k + (i + 1) = k + 1 + i by omega]
      exact hres

/-- Every entry of a result is the entry of a position of `urls`: its result is
the outcome text of the specification, which is `hashResponse(body)` when
`makeRequest` succeeded with `body` and the text of the error when it failed. -/
theorem entry_of_perm_expected (get : Nat → String → GetResult) (urls : List String)
    (r : List HashedURLResponse) (h : r.Perm (expectedFrom get 0 urls))
    (e : HashedURLResponse) (he : e ∈ r) :
    ∃ i : Nat, urls[i]? = some e.url
      ∧ e.result = specOutcome (get i e.url)
      ∧ ((makeRequest (get i e.url)).err = none →
          e.result = hashResponse (makeRequest (get i e.url)).body)
      ∧ (∀ err : GoError, (makeRequest (get i e.url)).err = some err →
          e.result = err.Error) := by
  obtain ⟨i, hi, hres⟩ := mem_expectedFrom get urls e 0 (h.mem_iff.mp he)
  rw [Nat.zero_add] at hres
  refine ⟨i, hi, ?_, ?_, ?_⟩
  · rw [hres, taskMsg_eq_specOutcome]
  · intro hnone
    rw [hres]
    simp only [taskMsg, hnone]
  · intro err herr
    rw [hres]
    simp only [taskMsg, herr]

/-- C2, as stated, fails: with one worker `makeRequests` returns the two entries
of `TestMakeRequests`, with 9223372036854775807 workers it panics at
`make(chan int, maxWorkers)` and returns nothing. -/
theorem makeRequests_workers_irrelevant_fails :
    (1 : Int) ≤ 1 ∧ (1 : Int) ≤ 9223372036854775807
    ∧ makeRequests linuxAmd64 testURLs 1 testServers (fun _ => 0)
        = .returned [⟨"http://127.0.0.1:1", "029f0e2f5b6c5e1bc52e145415d95f8c"⟩,
           ⟨"http://127.0.0.1:2", "MyHTTP_Error: Status code 500"⟩]
    ∧ makeRequests linuxAmd64 testURLs 9223372036854775807 testServers (fun _ => 0)
        = .panic := by
  decide!

/-- C2, amended: for a fixed answer to every request and worker limits of at
least one that the runtime accepts as the size of the channel, under any two
schedulers the two calls return the same entries up to order, the result set
of the specification; every entry belongs to a position of `urls`, with
`hashResponse(body)` when `makeRequest` on it succeeded with `body` and with
the `Error()` text when it failed; the same holds for the result in every
state that any schedule reaches. -/
theorem makeRequests_workers_irrelevant (rt : Runtime) (urls : List String) (w₁ w₂ : Int)
    (h₁ : 1 ≤ w₁) (h₂ : 1 ≤ w₂) (hok₁ : rt.chanOK w₁ = true) (hok₂ : rt.chanOK w₂ = true)
    (get : Nat → String → GetResult) (sched₁ sched₂ : Nat → Nat) :
    (∃ r₁ r₂, makeRequests rt urls w₁ get sched₁ = .returned r₁
      ∧ makeRequests rt urls w₂ get sched₂ = .returned r₂
      ∧ r₁.Perm r₂
      ∧ r₁.Perm (specEntries get 0 urls)
      ∧ r₂.Perm (specEntries get 0 urls)
      ∧ (∀ e : HashedURLResponse, e ∈ r₁ ∨ e ∈ r₂ →
          ∃ i : Nat, urls[i]? = some e.url
            ∧ e.result = specOutcome (get i e.url)
            ∧ ((makeRequest (get i e.url)).err = none →
                e.result = hashResponse (makeRequest (get i e.url)).body)
            ∧ (∀ err : GoError, (makeRequest (get i e.url)).err = some err →
                e.result = err.Error)))
    ∧ (∀ (as : List Action) (s : State) (r : List HashedURLResponse),
        (exec w₁.toNat get (initState urls) as = some s
          ∨ exec w₂.toNat get (initState urls) as = some s) →
        s.result = some r → r.Perm (specEntries get 0 urls)) := by
  obtain ⟨r₁, hr₁, hp₁⟩ := makeRequests_returns rt urls w₁ h₁ hok₁ get sched₁
  obtain ⟨r₂, hr₂, hp₂⟩ := makeRequests_returns rt urls w₂ h₂ hok₂ get sched₂
  have hspec := expectedFrom_eq_specEntries get urls 0
  refine ⟨⟨r₁, r₂, hr₁, hr₂, hp₁.trans hp₂.symm, hspec ▸ hp₁, hspec ▸ hp₂, ?_⟩, ?_⟩
  · intro e he
    rcases he with he | he
    · exact entry_of_perm_expected get urls r₁ hp₁ e he
    · exact entry_of_perm_expected get urls r₂ hp₂ e he
  · intro as s r h hr
    rw [← hspec]
    rcases h with h | h
    · exact exec_result urls w₁ h₁ get as s r h hr
    · exact exec_result urls w₂ h₂ get as s r h hr

/-- The test `TestMakeRequests`: with one worker, and with two workers under a
scheduler that records the second URL first, the entries are the same up to
order and sort to the hash of "responsebody" followed by the error of status 500. -/
theorem makeRequests_workers_irrelevant_witness :
    (1 : Int) ≤ 1 ∧ (1 : Int) ≤ 2
    ∧ linuxAmd64.chanOK 1 = true ∧ linuxAmd64.chanOK 2 = true
    ∧ (∃ r₁ r₂, makeRequests linuxAmd64 testURLs 1 testServers (fun _ => 0) = .returned r₁
        ∧ makeRequests linuxAmd64 testURLs 2 testServers (fun k => if k < 8 then 0 else 5)
            = .returned r₂
        ∧ r₁.Perm r₂
        ∧ r₁.Perm (specEntries testServers 0 testURLs)
        ∧ r₂.Perm (specEntries testServers 0 testURLs))
    ∧ specEntries testServers 0 testURLs
        = [⟨"http://127.0.0.1:1", "029f0e2f5b6c5e1bc52e145415d95f8c"⟩,
           ⟨"http://127.0.0.1:2", "MyHTTP_Error: Status code 500"⟩]
    ∧ makeRequests linuxAmd64 testURLs 2 testServers (fun k => if k < 8 then 0 else 5)
        = .returned [⟨"http://127.0.0.1:2", "MyHTTP_Error: Status code 500"⟩,
           ⟨"http://127.0.0.1:1", "029f0e2f5b6c5e1bc52e145415d95f8c"⟩]
    ∧ sortByResult [⟨"http://127.0.0.1:2", "MyHTTP_Error: Status code 500"⟩,
           ⟨"http://127.0.0.1:1", "029f0e2f5b6c5e1bc52e145415d95f8c"⟩]
        = [⟨"http://127.0.0.1:1", "029f0e2f5b6c5e1bc52e145415d95f8c"⟩,
           ⟨"http://127.0.0.1:2", "MyHTTP_Error: Status code 500"⟩] :=
  ⟨by decide, by decide, by decide, by decide,
    (match (makeRequests_workers_irrelevant linuxAmd64 testURLs 1 2 (by decide) (by decide)
      (by decide) (by decide) testServers (fun _ => 0) (fun k => if k < 8 then 0 else 5)).1 with
    | ⟨r₁, r₂, h₁, h₂, hp, hs₁, hs₂, _⟩ => ⟨r₁, r₂, h₁, h₂, hp, hs₁, hs₂⟩),
    by decide!, by decide!, by decide!⟩

/-- C3: with `maxWorkers ≥ 1`, in every state any schedule reaches, the
goroutines that have started their fetch and not yet received from `pool` are
at most `maxWorkers`, and so are those that have been spawned and not yet
received; with one worker at most one goroutine is inside `makeRequest`. -/
theorem in_flight_le_workers (urls : List String) (maxWorkers : Int) (hW : 1 ≤ maxWorkers)
    (get : Nat → String → GetResult) (as : List Action) (s : State)
    (h : exec maxWorkers.toNat get (initState urls) as = some s) :
    (inFlight s : Int) ≤ maxWorkers
    ∧ (((s.tasks.filter (fun t => t.pc ≠ .exited)).length : Int) ≤ maxWorkers)
    ∧ (maxWorkers = 1 → fetchingNow s ≤ 1) := by
  have hcap := toNat_pos_of_one_le maxWorkers hW
  have hinv := Inv.exec hcap as (Inv.init maxWorkers.toNat get urls) h
  have hpe := hinv.pool_eq
  have hpl := hinv.pool_le
  have hfl : inFlight s ≤ (s.tasks.map (fun t => t.pc.slot)).sum := by
    apply filter_length_le_sum
    intro t ht
    cases hpc : t.pc <;> simp [hpc, Pc.slot] at ht ⊢
  have hsp : (s.tasks.filter (fun t => t.pc ≠ .exited)).length
      ≤ (s.tasks.map (fun t => t.pc.slot)).sum := by
    apply filter_length_le_sum
    intro t ht
    cases hpc : t.pc <;> simp [hpc, Pc.slot] at ht ⊢
  have hfe : fetchingNow s ≤ (s.tasks.map (fun t => t.pc.slot)).sum := by
    apply filter_length_le_sum
    intro t ht
    cases hpc : t.pc <;> simp [hpc, Pc.slot] at ht ⊢
  refine ⟨by omega, by omega, ?_⟩
  intro h1
  omega

/-- One worker: after the first goroutine has started its fetch one goroutine
is in flight, and the caller cannot send to `pool` a second time. -/
theorem in_flight_le_workers_witness :
    (1 : Int) ≤ 1
    ∧ exec 1 testServers (initState testURLs) [.main, .main, .main, .task 0]
        = some firstFetching
    ∧ exec 1 testServers (initState testURLs) [.main, .main, .main, .task 0, .main] = none
    ∧ inFlight firstFetching = 1
    ∧ ((inFlight firstFetching : Nat) : Int) ≤ 1 :=
  ⟨by decide, by decide, by decide, by decide,
    (in_flight_le_workers testURLs 1 (by decide) testServers [.main, .main, .main, .task 0]
      _ (by decide)).1⟩

theorem runSched_stuck (cap : Nat) (get : Nat → String → GetResult) (sched : Nat → Nat)
    (fuel k : Nat) (s : State) (h : enabledActions cap get s = []) :
    runSched cap get sched fuel k s = s := by
  cases fuel with
  | zero => rfl
  | succ n => simp only [runSched, h]

/-- C7, as stated, fails: with `maxWorkers = 0` and one URL no goroutine can
move in the first state, `makeRequests` has not returned and has not panicked:
the caller is blocked for ever at `pool <- 1`. -/
theorem makeRequests_zero_workers_blocks :
    makeRequests linuxAmd64 ["http://example.com"] 0 (fun _ _ => .fail "refused") (fun _ => 0)
        = .blocked
    ∧ enabledActions 0 (fun _ _ => .fail "refused") (initState ["http://example.com"]) = []
    ∧ (initState ["http://example.com"]).main ≠ .returned
    ∧ (initState ["http://example.com"]).panicked = false := by
  decide

/-- C7, amended: a negative `maxWorkers` makes `make(chan int, maxWorkers)`
panic; with `maxWorkers = 0` and no URL `makeRequests` returns the empty
result; with `maxWorkers = 0` and at least one URL no goroutine can ever move
and the caller stays blocked at the first `pool <- 1`. -/
theorem makeRequests_nonpositive_workers (rt : Runtime) (urls : List String)
    (maxWorkers : Int) (hW : maxWorkers < 1) (get : Nat → String → GetResult)
    (sched : Nat → Nat) :
    (maxWorkers < 0 → makeRequests rt urls maxWorkers get sched = .panic)
    ∧ (maxWorkers = 0 → urls = [] → makeRequests rt urls maxWorkers get sched = .returned [])
    ∧ (maxWorkers = 0 → urls ≠ [] →
        makeRequests rt urls maxWorkers get sched = .blocked
        ∧ ∀ a : Action, step 0 get (initState urls) a = none) := by
  have hzero := rt.zero
  refine ⟨?_, ?_, ?_⟩
  · intro hneg
    simp [makeRequests, rt.neg maxWorkers hneg]
  · intro h0 hnil
    subst h0
    subst hnil
    simp [makeRequests, hzero, stepsLeft, runSched, enabledActions, step, stepMain, initState]
  · intro h0 hne
    subst h0
    cases urls with
    | nil => exact absurd rfl hne
    | cons url rest =>
      have hstuck : ∀ a : Action, step 0 get (initState (url :: rest)) a = none := by
        intro a
        cases a with
        | main => simp [step, stepMain, initState]
        | task i => simp [step, stepTask, initState]
      have hen : enabledActions 0 get (initState (url :: rest)) = [] := by
        simp [enabledActions, hstuck]
      refine ⟨?_, hstuck⟩
      simp only [makeRequests, hzero, Bool.true_eq_false, if_false, Int.toNat_zero,
        runSched_stuck 0 get sched _ 0 _ hen]
      simp [initState]

/-- The three cases at `-1` workers, at no URL and at one URL with 0 workers. -/
theorem makeRequests_nonpositive_workers_witness :
    (-1 : Int) < 1 ∧ (0 : Int) < 1
    ∧ makeRequests linuxAmd64 ["http://example.com"] (-1) testServers (fun _ => 0) = .panic
    ∧ makeRequests linuxAmd64 [] 0 testServers (fun _ => 0) = .returned []
    ∧ makeRequests linuxAmd64 ["http://example.com"] 0 testServers (fun _ => 0) = .blocked :=
  ⟨by decide, by decide,
    (makeRequests_nonpositive_workers linuxAmd64 ["http://example.com"] (-1) (by decide)
      testServers (fun _ => 0)).1 (by decide),
    (makeRequests_nonpositive_workers linuxAmd64 [] 0 (by decide) testServers
      (fun _ => 0)).2.1 rfl rfl,
    ((makeRequests_nonpositive_workers linuxAmd64 ["http://example.com"] 0 (by decide)
      testServers (fun _ => 0)).2.2 rfl (by decide)).1⟩

end MyHTTP
